import Mathlib

set_option maxHeartbeats 1000000

/-!
Verification development for the arikawa `discord` package:
the ffjson-generated JSON codec of `Emoji` (`discord/emoji_ffjson.go`)
and `Sticker.TagList` (`discord/message.go`).

Byte strings are modelled as `List Nat` (one entry per byte).
The fflib lexer hands the generated state machine a stream of tokens;
tokens are modelled by `FFTok`, carrying the captured bytes
(`fs.Output.Bytes()` / `fs.CaptureField`) where the generated code reads
them.  Fallible decoding returns `Except DecErr`.
-/

namespace Arikawa

/-- Bytes of an ASCII string literal. -/
def strB (s : String) : List Nat := s.data.map Char.toNat

/-- JSON token kinds produced by the fflib lexer (`fflib.FFTok_*`).
Note fflib's naming: `leftBracket`/`rightBracket` are the object braces
and `leftBrace`/`rightBrace` are the array brackets, exactly as in the
generated Go code.  Scalar tokens carry the captured bytes that
`fs.Output.Bytes()` exposes. -/
inductive FFTok where
  | leftBracket
  | rightBracket
  | leftBrace
  | rightBrace
  | comma
  | colon
  | string (content : List Nat)
  | integer (content : List Nat)
  | double (content : List Nat)
  | bool (content : List Nat)
  | null
  | error
  deriving DecidableEq, Repr

/-- Error kinds of the generated decoder (§7 of the spec):
`wrongToken` is the `wrongtokenerror` label (structural-token-error),
`wantedValue` the `wantedvalue` label and the array-comma error,
`typeMismatch` the "cannot unmarshal X into Go value for T" errors,
`malformedScalar` the "unexpected bytes for true/false value" error,
`snowflake` a failure of the delegated Snowflake scalar codec,
`lexer` a tokenizer fault (`tokerror` / `CaptureField` / `SkipField`). -/
inductive DecErr where
  | wrongToken
  | wantedValue
  | typeMismatch
  | malformedScalar
  | snowflake
  | lexer
  deriving DecidableEq, Repr

/-- The `fflib.FFParse_*` states of the decode state machine. -/
inductive PState where
  | mapStart
  | wantKey
  | wantColon
  | wantValue
  | afterValue
  deriving DecidableEq, Repr

/-- The `ffjtEmoji*` key constants of the generated decoder. -/
inductive EmojiKey where
  | base
  | nosuchkey
  | ID
  | Name
  | RoleIDs
  | User
  | RequireColons
  | Managed
  | Animated
  | Available
  deriving DecidableEq, Repr

/-- Modelled from the spec: the `discord.User` entity (its Go definition
and generated codec are not under `src/`).  Per §4.4 nested entities are
structurally identical generated codecs; we model a minimal User with its
`id` snowflake field. -/
structure User where
  ID : Nat
  deriving DecidableEq, Repr

/-- The `discord.Emoji` struct, fields as read back by the generated
codec: `ID EmojiID`, `Name string`, `RoleIDs []RoleID` (a nilable slice,
hence `Option`), `User User`, and four `bool` fields. -/
structure Emoji where
  ID : Nat
  Name : List Nat
  RoleIDs : Option (List Nat)
  User : User
  RequireColons : Bool
  Managed : Bool
  Animated : Bool
  Available : Bool
  deriving DecidableEq, Repr

/-- The zero value of `Emoji`, as produced by `var e Emoji` before
`UnmarshalJSON` populates it. -/
def Emoji.zero : Emoji :=
  { ID := 0, Name := [], RoleIDs := none, User := { ID := 0 },
    RequireColons := false, Managed := false, Animated := false,
    Available := false }

/-! ## Wire-key tables (`ffjKeyEmoji*`) -/

def ffjKeyEmojiID : List Nat := strB "id"

def ffjKeyEmojiName : List Nat := strB "name"

def ffjKeyEmojiRoleIDs : List Nat := strB "roles"

def ffjKeyEmojiUser : List Nat := strB "user"

def ffjKeyEmojiRequireColons : List Nat := strB "require_colons"

def ffjKeyEmojiManaged : List Nat := strB "managed"

def ffjKeyEmojiAnimated : List Nat := strB "animated"

def ffjKeyEmojiAvailable : List Nat := strB "available"

/-! ## fflib case-folding helpers

`fflib.SimpleLetterEqualFold` and `fflib.EqualFoldRight` are the library
fold routines the generated matcher calls (ffjson `fflib/v1/fold.go`,
lifted from Go's `encoding/json`). -/

/-- `fflib.SimpleLetterEqualFold s t`: equal length and byte-wise equal
under the case mask `&^ 0x20` (that is, `b &&& 223`). -/
def simpleLetterEqualFold : List Nat → List Nat → Bool
  | [], [] => true
  | a :: s, b :: t => (a &&& 223 == b &&& 223) && simpleLetterEqualFold s t
  | _, _ => false

/-- `fflib.EqualFoldRight s t`: `s` is known ASCII; each byte of `s` is
matched case-insensitively against `t`, where `t` may also spell the
letters s/S and k/K as the UTF-8 sequences for the long s U+017F
(`0xC5 0xBF`) and the Kelvin sign U+212A (`0xE2 0x84 0xAA`); any other
non-ASCII byte in `t` fails the fold. -/
def equalFoldRight : List Nat → List Nat → Bool
  | [], t => t.isEmpty
  | _ :: _, [] => false
  | sb :: s, tb :: t =>
    if tb < 128 then
      (sb == tb ||
        ((65 ≤ (sb &&& 223)) && ((sb &&& 223) ≤ 90) &&
          ((sb &&& 223) == (tb &&& 223)))) &&
      equalFoldRight s t
    else if tb == 197 then
      match t with
      | 191 :: t2 => (sb == 115 || sb == 83) && equalFoldRight s t2
      | _ => false
    else if tb == 226 then
      match t with
      | 132 :: 170 :: t2 => (sb == 107 || sb == 75) && equalFoldRight s t2
      | _ => false
    else false

/-! ## The wire-key matcher (`FFParse_want_key` case) -/

/-- The `switch kn[0]` block of exact `bytes.Equal` comparisons in
`Emoji.UnmarshalJSONFFLexer`; `none` means fall through to the fold
chain. -/
def matchKeySwitch (kn : List Nat) : Option EmojiKey :=
  match kn with
  | [] => none
  | b :: _ =>
    if b == 97 then
      if kn = ffjKeyEmojiAnimated then some .Animated
      else if kn = ffjKeyEmojiAvailable then some .Available
      else none
    else if b == 105 then
      if kn = ffjKeyEmojiID then some .ID else none
    else if b == 109 then
      if kn = ffjKeyEmojiManaged then some .Managed else none
    else if b == 110 then
      if kn = ffjKeyEmojiName then some .Name else none
    else if b == 114 then
      if kn = ffjKeyEmojiRoleIDs then some .RoleIDs
      else if kn = ffjKeyEmojiRequireColons then some .RequireColons
      else none
    else if b == 117 then
      if kn = ffjKeyEmojiUser then some .User else none
    else none

/-- The chain of fold comparisons following the switch, in source
order. -/
def matchKeyFolds (kn : List Nat) : EmojiKey :=
  if simpleLetterEqualFold ffjKeyEmojiAvailable kn then .Available
  else if simpleLetterEqualFold ffjKeyEmojiAnimated kn then .Animated
  else if simpleLetterEqualFold ffjKeyEmojiManaged kn then .Managed
  else if equalFoldRight ffjKeyEmojiRequireColons kn then .RequireColons
  else if equalFoldRight ffjKeyEmojiUser kn then .User
  else if equalFoldRight ffjKeyEmojiRoleIDs kn then .RoleIDs
  else if simpleLetterEqualFold ffjKeyEmojiName kn then .Name
  else if simpleLetterEqualFold ffjKeyEmojiID kn then .ID
  else .nosuchkey

/-- Resolution of a captured object key `kn` to a field constant, as in
the `FFParse_want_key` case: the empty key short-circuits to
`nosuchkey`, then the first-byte switch of exact matches, then the fold
chain, then `nosuchkey`. -/
def matchEmojiKey (kn : List Nat) : EmojiKey :=
  if kn.length ≤ 0 then .nosuchkey
  else
    match matchKeySwitch kn with
    | some k => k
    | none => matchKeyFolds kn

example : matchEmojiKey (strB "animated") = .Animated := by decide
example : matchEmojiKey (strB "ANIMATED") = .Animated := by decide
example : matchEmojiKey (strB "Require_Colons") = .RequireColons := by decide
example : matchEmojiKey (strB "foo") = .nosuchkey := by decide
example : matchEmojiKey [] = .nosuchkey := by decide
example : matchEmojiKey [117, 197, 191, 101, 114] = .User := by decide

/-! ## Value tokens and field skipping -/

/-- The token kinds accepted at `FFParse_want_value` (the big disjunction
guarding the `currentKey` switch). -/
def valueTok : FFTok → Bool
  | .leftBrace | .leftBracket | .integer _ | .double _ | .string _
  | .bool _ | .null => true
  | _ => false

/-- Balanced consumption used by `fs.SkipField` and `fs.CaptureField` on
container values: consume tokens until the bracket depth `d` returns to
zero, returning the consumed span and the remaining tokens.  A lexer
fault or end of input inside the container yields `none`. -/
def splitBalanced : Nat → List FFTok → Option (List FFTok × List FFTok)
  | _, [] => none
  | d, t :: ts =>
    if t = .leftBracket ∨ t = .leftBrace then
      (splitBalanced (d + 1) ts).map (fun p => (t :: p.1, p.2))
    else if t = .rightBracket ∨ t = .rightBrace then
      if d ≤ 1 then some ([t], ts)
      else (splitBalanced (d - 1) ts).map (fun p => (t :: p.1, p.2))
    else if t = .error then none
    else (splitBalanced d ts).map (fun p => (t :: p.1, p.2))

theorem splitBalanced_length_le (ts : List FFTok) :
    ∀ d sp r, splitBalanced d ts = some (sp, r) → r.length ≤ ts.length := by
  induction ts with
  | nil => intro d sp r h; simp [splitBalanced] at h
  | cons t ts ih =>
    intro d sp r h
    simp only [splitBalanced] at h
    split at h
    · obtain ⟨⟨sp1, r1⟩, hx, he⟩ := Option.map_eq_some'.mp h
      cases he
      exact le_trans (ih _ _ _ hx) (Nat.le_succ _)
    · split at h
      · split at h
        · obtain ⟨h1, h2⟩ := Option.some.injEq _ _ ▸ h
          cases h
          simp
        · obtain ⟨⟨sp1, r1⟩, hx, he⟩ := Option.map_eq_some'.mp h
          cases he
          exact le_trans (ih _ _ _ hx) (Nat.le_succ _)
      · split at h
        · exact absurd h (by simp)
        · obtain ⟨⟨sp1, r1⟩, hx, he⟩ := Option.map_eq_some'.mp h
          cases he
          exact le_trans (ih _ _ _ hx) (Nat.le_succ _)

/-- `fs.SkipField tok`: with `tok` the first token of the value, a scalar
is already fully consumed; a container is consumed to its matching close
bracket. -/
def skipValue (t : FFTok) (ts : List FFTok) : Option (List FFTok) :=
  match t with
  | .string _ | .integer _ | .double _ | .bool _ | .null => some ts
  | .leftBracket | .leftBrace => (splitBalanced 1 ts).map (·.2)
  | _ => none

theorem skipValue_length_le (t : FFTok) (ts r : List FFTok)
    (h : skipValue t ts = some r) : r.length ≤ ts.length := by
  cases t <;> simp only [skipValue, Option.map_eq_some',
    Option.some.injEq, reduceCtorEq] at h
  case leftBracket =>
    obtain ⟨⟨sp1, r1⟩, hx, he⟩ := h
    cases he
    exact splitBalanced_length_le ts _ _ _ hx
  case leftBrace =>
    obtain ⟨⟨sp1, r1⟩, hx, he⟩ := h
    cases he
    exact splitBalanced_length_le ts _ _ _ hx
  all_goals (subst h; exact le_rfl)

/-- Decimal digit bytes. -/
def isDigitB (b : Nat) : Bool := 48 ≤ b && b ≤ 57

/-- Decimal rendering of a natural number, as ASCII bytes. -/
def natToDec (n : Nat) : List Nat :=
  if n = 0 then [48] else (Nat.digits 10 n).reverse.map (· + 48)

/-- Value of a list of ASCII digit bytes. -/
def decVal (l : List Nat) : Nat := l.foldl (fun a b => a * 10 + (b - 48)) 0

/-- Rendering of one token back to bytes (used to model the raw bytes
`fs.CaptureField` hands to a nested scalar codec, and, in proofs, the
byte image of a token stream). -/
def renderTok : FFTok → List Nat
  | .leftBracket => [123]
  | .rightBracket => [125]
  | .leftBrace => [91]
  | .rightBrace => [93]
  | .comma => [44]
  | .colon => [58]
  | .string s => 34 :: s ++ [34]
  | .integer s => s
  | .double s => s
  | .bool s => s
  | .null => strB "null"
  | .error => []

def renderToks (ts : List FFTok) : List Nat := (ts.map renderTok).flatten

/-- `fs.CaptureField tok`: the raw bytes of the complete value whose
first token is `tok`, plus the remaining tokens.  For a scalar this is
the token's own bytes (a string keeps its quotes); for a container the
balanced span is consumed and re-rendered. -/
def captureField (t : FFTok) (ts : List FFTok) :
    Option (List Nat × List FFTok) :=
  match t with
  | .string _ | .integer _ | .double _ | .bool _ | .null =>
    some (renderTok t, ts)
  | .leftBracket | .leftBrace =>
    (splitBalanced 1 ts).map (fun p => (renderTok t ++ renderToks p.1, p.2))
  | _ => none

theorem captureField_length_le (t : FFTok) (ts : List FFTok)
    (buf : List Nat) (r : List FFTok)
    (h : captureField t ts = some (buf, r)) : r.length ≤ ts.length := by
  cases t <;> simp only [captureField, Option.map_eq_some',
    Option.some.injEq, Prod.mk.injEq, reduceCtorEq] at h
  case leftBracket =>
    obtain ⟨⟨sp1, r1⟩, hx, he1, he2⟩ := h
    subst he2
    exact splitBalanced_length_le ts _ _ _ hx
  case leftBrace =>
    obtain ⟨⟨sp1, r1⟩, hx, he1, he2⟩ := h
    subst he2
    exact splitBalanced_length_le ts _ _ _ hx
  all_goals (obtain ⟨h1, h2⟩ := h; subst h2; exact le_rfl)

/-! ## The Snowflake scalar codec

Modelled from the spec: the `Snowflake` 64-bit identifier codec
(`discord/snowflake.go`) is not under `src/`.  §4.2/§6: a dedicated
fixed-width unsigned-integer parse of the captured token bytes,
supporting both string-quoted and bare numeric encodings; identifiers
are written to the wire as quoted decimal strings. -/

/-- Modelled from the spec: parse ASCII decimal bytes as a 64-bit
unsigned identifier. -/
def parseDec (core : List Nat) : Except DecErr Nat :=
  if core ≠ [] ∧ core.all isDigitB ∧ decVal core < 2 ^ 64 then
    .ok (decVal core)
  else .error .snowflake

/-- Modelled from the spec: `Snowflake.UnmarshalJSON` accepts the
identifier quoted or bare. -/
def Snowflake.UnmarshalJSON (tbuf : List Nat) : Except DecErr Nat :=
  match tbuf with
  | 34 :: rest =>
    if rest.getLast? = some 34 then parseDec rest.dropLast
    else .error .snowflake
  | _ => parseDec tbuf

/-- Modelled from the spec: `Snowflake.MarshalJSON` writes the
identifier as a quoted decimal string. -/
def Snowflake.MarshalJSON (n : Nat) : List Nat := 34 :: natToDec n ++ [34]

/-- The four identical generated boolean field handlers
(`handle_RequireColons` / `handle_Managed` / `handle_Animated` /
`handle_Available`): a non-bool non-null token is a type mismatch, null
leaves the field unchanged, and the captured bytes must be literally
`true` or `false`. -/
def decodeBoolToken (t : FFTok) (cur : Bool) : Except DecErr Bool :=
  match t with
  | .null => .ok cur
  | .bool s =>
    if s = strB "true" then .ok true
    else if s = strB "false" then .ok false
    else .error .malformedScalar
  | _ => .error .typeMismatch

/-- The element loop of `handle_RoleIDs`: scan tokens until `]`,
tolerating commas between elements (with the `[,`-style error when a
comma arrives while a value is wanted), capturing each element for the
RoleID snowflake codec; a `null` element leaves the zero RoleID. -/
def rolesLoop (wantVal : Bool) (acc : List Nat) :
    List FFTok → Except DecErr (List Nat × List FFTok)
  | [] => .error .lexer
  | t :: ts =>
    if t = .error then .error .lexer
    else if t = .rightBrace then .ok (acc, ts)
    else if t = .comma then
      if wantVal then .error .wantedValue else rolesLoop wantVal acc ts
    else if t = .null then rolesLoop false (acc ++ [0]) ts
    else
      match h : captureField t ts with
      | some (buf, rest) =>
        match Snowflake.UnmarshalJSON buf with
        | .ok n => rolesLoop false (acc ++ [n]) rest
        | .error e => .error e
      | none => .error .lexer
  termination_by ts => ts.length
  decreasing_by
  all_goals simp only [List.length_cons]
  all_goals try omega
  all_goals (have hq := captureField_length_le t ts buf rest h; omega)

/-- Modelled from the spec: the wire-key matcher of the generated User
decoder for its single modelled field `id` (same shape as the Emoji
matcher: empty-key check, exact match, case-insensitive fold
fallback). -/
def matchUserKey (kn : List Nat) : Bool :=
  if kn.length ≤ 0 then false
  else if kn = strB "id" then true
  else if simpleLetterEqualFold (strB "id") kn then true
  else false

/-- Modelled from the spec: `User.UnmarshalJSONFFLexer`, the generated
decode state machine of the nested User entity (§4.4: structurally
identical per-entity codecs), for a User with one snowflake field.
`isID` plays the role of its `currentKey`. -/
def User.UnmarshalJSONFFLexer (u : User) (state : PState) (isID : Bool) :
    List FFTok → Except DecErr (User × List FFTok)
  | [] =>
    .error (match state with
      | .wantValue => DecErr.wantedValue
      | _ => DecErr.wrongToken)
  | t :: ts =>
    if t = .error then .error .lexer
    else
      match state with
      | .mapStart =>
        if t = .leftBracket then User.UnmarshalJSONFFLexer u .wantKey isID ts
        else .error .wrongToken
      | .afterValue =>
        if t = .comma then User.UnmarshalJSONFFLexer u .wantKey isID ts
        else if t = .rightBracket then .ok (u, ts)
        else .error .wrongToken
      | .wantKey =>
        if t = .rightBracket then .ok (u, ts)
        else
          match t with
          | .string kn =>
            User.UnmarshalJSONFFLexer u .wantColon (matchUserKey kn) ts
          | _ => .error .wrongToken
      | .wantColon =>
        if t = .colon then User.UnmarshalJSONFFLexer u .wantValue isID ts
        else .error .wrongToken
      | .wantValue =>
        if valueTok t then
          if isID then
            if t = .null then User.UnmarshalJSONFFLexer u .afterValue isID ts
            else
              match h : captureField t ts with
              | some (buf, rest) =>
                match Snowflake.UnmarshalJSON buf with
                | .ok n =>
                  User.UnmarshalJSONFFLexer { ID := n } .afterValue isID rest
                | .error e => .error e
              | none => .error .lexer
          else
            match h : skipValue t ts with
            | some rest => User.UnmarshalJSONFFLexer u .afterValue isID rest
            | none => .error .lexer
        else .error .wantedValue
  termination_by ts => ts.length
  decreasing_by
  all_goals simp only [List.length_cons]
  all_goals try omega
  all_goals
    first
      | (have hq := captureField_length_le t ts buf rest h; omega)
      | (have hq := skipValue_length_le t ts rest h; omega)

theorem rolesLoop_length_le_aux :
    ∀ (N : Nat) (ts : List FFTok), ts.length ≤ N →
      ∀ w acc ids r, rolesLoop w acc ts = .ok (ids, r) →
        r.length ≤ ts.length := by
  intro N
  induction N with
  | zero =>
    intro ts hts w acc ids r h
    have : ts = [] := List.length_eq_zero.mp (Nat.le_zero.mp hts)
    subst this
    rw [rolesLoop] at h
    exact Except.noConfusion h
  | succ N ihN =>
    intro ts hts w acc ids r h
    cases ts with
    | nil => rw [rolesLoop] at h; exact Except.noConfusion h
    | cons t ts =>
      have hts2 : ts.length ≤ N := by simp at hts; omega
      rw [rolesLoop] at h
      by_cases h1 : t = FFTok.error
      · rw [if_pos h1] at h; exact Except.noConfusion h
      rw [if_neg h1] at h
      by_cases h2 : t = FFTok.rightBrace
      · rw [if_pos h2] at h
        injection h with hp
        obtain ⟨hp1, hp2⟩ := Prod.mk.injEq .. ▸ hp
        subst hp2
        exact Nat.le_succ _
      rw [if_neg h2] at h
      by_cases h3 : t = FFTok.comma
      · rw [if_pos h3] at h
        by_cases hw : w = true
        · rw [if_pos hw] at h; exact Except.noConfusion h
        · rw [if_neg hw] at h
          exact (ihN ts hts2 _ _ _ _ h).trans (Nat.le_succ _)
      rw [if_neg h3] at h
      by_cases h4 : t = FFTok.null
      · rw [if_pos h4] at h
        exact (ihN ts hts2 _ _ _ _ h).trans (Nat.le_succ _)
      rw [if_neg h4] at h
      split at h
      next buf rest hcap =>
        split at h
        next n hsf =>
          have hr := captureField_length_le t ts buf rest hcap
          have hts3 : rest.length ≤ N := le_trans hr hts2
          exact (ihN rest hts3 _ _ _ _ h).trans (hr.trans (Nat.le_succ _))
        next e hsf => exact Except.noConfusion h
      next hcap => exact Except.noConfusion h

theorem rolesLoop_length_le (w : Bool) (acc : List Nat) (ts : List FFTok)
    (ids : List Nat) (r : List FFTok) (h : rolesLoop w acc ts = .ok (ids, r)) :
    r.length ≤ ts.length :=
  rolesLoop_length_le_aux ts.length ts le_rfl w acc ids r h

theorem userLoop_length_le_aux :
    ∀ (N : Nat) (ts : List FFTok), ts.length ≤ N →
      ∀ u state isID u2 r,
        User.UnmarshalJSONFFLexer u state isID ts = .ok (u2, r) →
        r.length ≤ ts.length := by
  intro N
  induction N with
  | zero =>
    intro ts hts u state isID u2 r h
    have : ts = [] := List.length_eq_zero.mp (Nat.le_zero.mp hts)
    subst this
    rw [User.UnmarshalJSONFFLexer.eq_def] at h
    exact Except.noConfusion h
  | succ N ihN =>
    intro ts hts u state isID u2 r h
    cases ts with
    | nil => rw [User.UnmarshalJSONFFLexer.eq_def] at h; exact Except.noConfusion h
    | cons t ts =>
      have hts2 : ts.length ≤ N := by simp at hts; omega
      rw [User.UnmarshalJSONFFLexer.eq_def] at h
      dsimp only at h
      by_cases h1 : t = FFTok.error
      · rw [if_pos h1] at h; exact Except.noConfusion h
      rw [if_neg h1] at h
      cases state with
      | mapStart =>
        dsimp only at h
        by_cases h2 : t = FFTok.leftBracket
        · rw [if_pos h2] at h
          exact (ihN ts hts2 _ _ _ _ _ h).trans (Nat.le_succ _)
        · rw [if_neg h2] at h; exact Except.noConfusion h
      | afterValue =>
        dsimp only at h
        by_cases h2 : t = FFTok.comma
        · rw [if_pos h2] at h
          exact (ihN ts hts2 _ _ _ _ _ h).trans (Nat.le_succ _)
        rw [if_neg h2] at h
        by_cases h3 : t = FFTok.rightBracket
        · rw [if_pos h3] at h
          injection h with hp
          obtain ⟨hp1, hp2⟩ := Prod.mk.injEq .. ▸ hp
          subst hp2
          exact Nat.le_succ _
        · rw [if_neg h3] at h; exact Except.noConfusion h
      | wantKey =>
        dsimp only at h
        by_cases h2 : t = FFTok.rightBracket
        · rw [if_pos h2] at h
          injection h with hp
          obtain ⟨hp1, hp2⟩ := Prod.mk.injEq .. ▸ hp
          subst hp2
          exact Nat.le_succ _
        rw [if_neg h2] at h
        split at h
        next kn => exact (ihN ts hts2 _ _ _ _ _ h).trans (Nat.le_succ _)
        next => exact Except.noConfusion h
      | wantColon =>
        dsimp only at h
        by_cases h2 : t = FFTok.colon
        · rw [if_pos h2] at h
          exact (ihN ts hts2 _ _ _ _ _ h).trans (Nat.le_succ _)
        · rw [if_neg h2] at h; exact Except.noConfusion h
      | wantValue =>
        dsimp only at h
        by_cases hv : valueTok t = true
        · rw [if_pos hv] at h
          by_cases hid : isID = true
          · rw [if_pos hid] at h
            by_cases h2 : t = FFTok.null
            · rw [if_pos h2] at h
              exact (ihN ts hts2 _ _ _ _ _ h).trans (Nat.le_succ _)
            rw [if_neg h2] at h
            split at h
            next buf rest hcap =>
              split at h
              next n hsf =>
                have hr := captureField_length_le t ts buf rest hcap
                exact (ihN rest (le_trans hr hts2) _ _ _ _ _ h).trans
                  (hr.trans (Nat.le_succ _))
              next e hsf => exact Except.noConfusion h
            next hcap => exact Except.noConfusion h
          · rw [if_neg hid] at h
            split at h
            next rest hskip =>
              have hr := skipValue_length_le t ts rest hskip
              exact (ihN rest (le_trans hr hts2) _ _ _ _ _ h).trans
                (hr.trans (Nat.le_succ _))
            next hskip => exact Except.noConfusion h
        · rw [if_neg hv] at h; exact Except.noConfusion h

theorem userLoop_length_le (u : User) (state : PState) (isID : Bool)
    (ts : List FFTok) (u2 : User) (r : List FFTok)
    (h : User.UnmarshalJSONFFLexer u state isID ts = .ok (u2, r)) :
    r.length ≤ ts.length :=
  userLoop_length_le_aux ts.length ts le_rfl u state isID u2 r h

/-! ## The Emoji decode state machine (`Emoji.UnmarshalJSONFFLexer`) -/

/-- `Emoji.UnmarshalJSONFFLexer`: the generated goto-based state machine,
written as a recursive function over the token stream.  `key` is the
`currentKey` register (`ffjtEmojibase` initially).  Scanning past the end
of the input yields the per-state wrong-token error (`fflib` returns an
end token that matches no expected token).  On success the decoded Emoji
and the unconsumed tokens are returned (`done` just returns; trailing
tokens are never inspected). -/
def Emoji.UnmarshalJSONFFLexer (j : Emoji) (state : PState) (key : EmojiKey) :
    List FFTok → Except DecErr (Emoji × List FFTok)
  | [] =>
    .error (match state with
      | .wantValue => DecErr.wantedValue
      | _ => DecErr.wrongToken)
  | t :: ts =>
    if t = FFTok.error then .error .lexer
    else
      match state with
      | .mapStart =>
        if t = FFTok.leftBracket then
          Emoji.UnmarshalJSONFFLexer j .wantKey key ts
        else .error .wrongToken
      | .afterValue =>
        if t = FFTok.comma then Emoji.UnmarshalJSONFFLexer j .wantKey key ts
        else if t = FFTok.rightBracket then .ok (j, ts)
        else .error .wrongToken
      | .wantKey =>
        if t = FFTok.rightBracket then .ok (j, ts)
        else
          match t with
          | .string kn =>
            Emoji.UnmarshalJSONFFLexer j .wantColon (matchEmojiKey kn) ts
          | _ => .error .wrongToken
      | .wantColon =>
        if t = FFTok.colon then Emoji.UnmarshalJSONFFLexer j .wantValue key ts
        else .error .wrongToken
      | .wantValue =>
        if valueTok t then
          match key with
          | .ID =>
            if t = FFTok.null then
              Emoji.UnmarshalJSONFFLexer j .afterValue key ts
            else
              match h : captureField t ts with
              | some (buf, rest) =>
                match Snowflake.UnmarshalJSON buf with
                | .ok n =>
                  Emoji.UnmarshalJSONFFLexer { j with ID := n }
                    .afterValue key rest
                | .error e => .error e
              | none => .error .lexer
          | .Name =>
            match t with
            | .string s =>
              Emoji.UnmarshalJSONFFLexer { j with Name := s }
                .afterValue key ts
            | .null => Emoji.UnmarshalJSONFFLexer j .afterValue key ts
            | _ => .error .typeMismatch
          | .RoleIDs =>
            if t = FFTok.null then
              Emoji.UnmarshalJSONFFLexer { j with RoleIDs := none }
                .afterValue key ts
            else if t = FFTok.leftBrace then
              match h : rolesLoop true [] ts with
              | .ok (ids, rest) =>
                Emoji.UnmarshalJSONFFLexer { j with RoleIDs := some ids }
                  .afterValue key rest
              | .error e => .error e
            else .error .typeMismatch
          | .User =>
            if t = FFTok.null then
              Emoji.UnmarshalJSONFFLexer j .afterValue key ts
            else
              match h : User.UnmarshalJSONFFLexer j.User .wantKey false ts with
              | .ok (u2, rest) =>
                Emoji.UnmarshalJSONFFLexer { j with User := u2 }
                  .afterValue key rest
              | .error e => .error e
          | .RequireColons =>
            match decodeBoolToken t j.RequireColons with
            | .ok b =>
              Emoji.UnmarshalJSONFFLexer { j with RequireColons := b }
                .afterValue key ts
            | .error e => .error e
          | .Managed =>
            match decodeBoolToken t j.Managed with
            | .ok b =>
              Emoji.UnmarshalJSONFFLexer { j with Managed := b }
                .afterValue key ts
            | .error e => .error e
          | .Animated =>
            match decodeBoolToken t j.Animated with
            | .ok b =>
              Emoji.UnmarshalJSONFFLexer { j with Animated := b }
                .afterValue key ts
            | .error e => .error e
          | .Available =>
            match decodeBoolToken t j.Available with
            | .ok b =>
              Emoji.UnmarshalJSONFFLexer { j with Available := b }
                .afterValue key ts
            | .error e => .error e
          | .base | .nosuchkey =>
            match h : skipValue t ts with
            | some rest => Emoji.UnmarshalJSONFFLexer j .afterValue key rest
            | none => .error .lexer
        else .error .wantedValue
  termination_by ts => ts.length
  decreasing_by
  all_goals simp only [List.length_cons]
  all_goals try omega
  all_goals
    first
      | (have hq := captureField_length_le t ts buf rest h; omega)
      | (have hq := rolesLoop_length_le true [] ts ids rest h; omega)
      | (have hq := userLoop_length_le j.User .wantKey false ts u2 rest h; omega)
      | (have hq := skipValue_length_le t ts rest h; omega)

/-- Decoding a token stream into a fresh Emoji, as
`Emoji.UnmarshalJSON` does with a zero receiver: start the lexer-driven
state machine at `FFParse_map_start` and keep only the decoded value. -/
def Emoji.UnmarshalJSONToks (toks : List FFTok) : Except DecErr Emoji :=
  (Emoji.UnmarshalJSONFFLexer Emoji.zero .mapStart .base toks).map (·.1)

/-! ## The encoder (`Emoji.MarshalJSONBuf` / `Emoji.MarshalJSON`) -/

/-- One hexadecimal digit byte. -/
def hexDigit (n : Nat) : Nat := if n < 10 then 48 + n else 87 + n

/-- Modelled from the spec: the byte-level escaping of
`fflib.WriteJsonString` for one content byte (library code, not in this
repository): quote and backslash are escaped, control bytes take the
`\u00XX` form, anything else passes through. -/
def escByte (b : Nat) : List Nat :=
  if b = 34 then [92, 34]
  else if b = 92 then [92, 92]
  else if b < 32 then [92, 117, 48, 48, hexDigit (b / 16), hexDigit (b % 16)]
  else [b]

/-- Modelled from the spec: `fflib.WriteJsonString` writes a quoted JSON
string. -/
def writeJsonString (s : List Nat) : List Nat :=
  34 :: (s.map escByte).flatten ++ [34]

/-- Modelled from the spec: `User.MarshalJSONBuf`, the generated encoder
of the nested User entity with its single modelled `id` field (same
shape as the Emoji encoder after its trailing-comma rewind). -/
def User.MarshalJSONBuf (u : User) : List Nat :=
  strB "\x7b \"id\":" ++ Snowflake.MarshalJSON u.ID ++ strB "\x7d"

/-- `len(j.RoleIDs)`: a nil Go slice has length zero. -/
def roleLen : Option (List Nat) → Nat
  | none => 0
  | some l => l.length

/-- The `for i, v := range j.RoleIDs` element loop of the encoder: a
comma before every element except the first. -/
def rolesElems : List Nat → List Nat
  | [] => []
  | [x] => Snowflake.MarshalJSON x
  | x :: y :: t => Snowflake.MarshalJSON x ++ [44] ++ rolesElems (y :: t)

/-- `Emoji.MarshalJSONBuf` on a non-nil receiver: the fixed-order field
writes, each field (or omitted group) followed by a trailing comma, then
`buf.Rewind(1)` (drop the last byte) and the closing brace.  `id` and
`name` are written unconditionally; `roles` only when the slice is
non-empty (the generated `j.RoleIDs != nil` null-branch inside that
guard is kept, though unreachable); `user` is written unconditionally
(`if true` in the generated code); each boolean only when it is not
`false`. -/
def Emoji.MarshalJSONBuf (j : Emoji) : List Nat :=
  let core :=
    strB "\x7b \"id\":" ++ Snowflake.MarshalJSON j.ID
    ++ strB ",\"name\":" ++ writeJsonString j.Name ++ [44]
    ++ (if roleLen j.RoleIDs ≠ 0 then
          strB "\"roles\":"
          ++ (match j.RoleIDs with
              | some l => [91] ++ rolesElems l ++ [93]
              | none => strB "null")
          ++ [44]
        else [])
    ++ (strB "\"user\":" ++ User.MarshalJSONBuf j.User ++ [44])
    ++ (if j.RequireColons ≠ false then
          (if j.RequireColons then strB "\"require_colons\":true"
           else strB "\"require_colons\":false") ++ [44]
        else [])
    ++ (if j.Managed ≠ false then
          (if j.Managed then strB "\"managed\":true"
           else strB "\"managed\":false") ++ [44]
        else [])
    ++ (if j.Animated ≠ false then
          (if j.Animated then strB "\"animated\":true"
           else strB "\"animated\":false") ++ [44]
        else [])
    ++ (if j.Available ≠ false then
          (if j.Available then strB "\"available\":true"
           else strB "\"available\":false") ++ [44]
        else [])
  core.dropLast ++ [125]

/-- `Emoji.MarshalJSON`: a nil receiver writes the literal `null` and
returns at once; otherwise the buffer encoder runs. -/
def Emoji.MarshalJSON : Option Emoji → List Nat
  | none => strB "null"
  | some j => j.MarshalJSONBuf

/-! ## The tokenizer

Modelled from the spec (§4.1): the fflib lexer turns raw bytes into
primitive JSON tokens, exposing the captured bytes of strings and
numbers; on malformed input it produces an error token. -/

/-- Modelled from the spec: the single-character string escapes the
tokenizer undoes. -/
def unescByte (e : Nat) : Option Nat :=
  if e = 34 then some 34
  else if e = 92 then some 92
  else if e = 47 then some 47
  else if e = 110 then some 10
  else if e = 116 then some 9
  else if e = 114 then some 13
  else if e = 98 then some 8
  else if e = 102 then some 12
  else none

/-- Value of a hexadecimal digit byte, `none` when not hexadecimal. -/
def hexVal (b : Nat) : Option Nat :=
  if 48 ≤ b ∧ b ≤ 57 then some (b - 48)
  else if 97 ≤ b ∧ b ≤ 102 then some (b - 87)
  else if 65 ≤ b ∧ b ≤ 70 then some (b - 55)
  else none

/-- Modelled from the spec: scan a JSON string body after the opening
quote, undoing escapes, returning the captured content and the rest of
the input; `none` on an unterminated or malformed string. -/
def readStringBytes : List Nat → Option (List Nat × List Nat)
  | [] => none
  | 34 :: rest => some ([], rest)
  | 92 :: 117 :: h1 :: h2 :: h3 :: h4 :: rest =>
    match hexVal h1, hexVal h2, hexVal h3, hexVal h4 with
    | some v1, some v2, some v3, some v4 =>
      (readStringBytes rest).map
        (fun p => ((((v1 * 16 + v2) * 16 + v3) * 16 + v4) % 256 :: p.1, p.2))
    | _, _, _, _ => none
  | 92 :: e :: rest =>
    match unescByte e with
    | some b => (readStringBytes rest).map (fun p => (b :: p.1, p.2))
    | none => none
  | b :: rest => (readStringBytes rest).map (fun p => (b :: p.1, p.2))

theorem readStringBytes_length_lt :
    ∀ l c r, readStringBytes l = some (c, r) → r.length < l.length := by
  intro l
  induction l using readStringBytes.induct <;> intro c r h <;>
    rw [readStringBytes] at h <;> simp_all
  all_goals (rename_i ih; obtain ⟨a, ha, hc⟩ := h; have := ih _ _ ha; omega)

theorem dropWhile_length_le {α : Type} (p : α → Bool) :
    ∀ l : List α, (l.dropWhile p).length ≤ l.length := by
  intro l
  induction l with
  | nil => simp
  | cons a l ih =>
    simp only [List.dropWhile_cons]
    split
    · exact ih.trans (Nat.le_succ _)
    · simp

/-- Consume an expected literal byte sequence from the input. -/
def stripLit : List Nat → List Nat → Option (List Nat)
  | [], bs => some bs
  | w :: ws, b :: bs => if b = w then stripLit ws bs else none
  | _ :: _, [] => none

theorem stripLit_length_le :
    ∀ w bs r, stripLit w bs = some r → r.length ≤ bs.length := by
  intro w
  induction w with
  | nil => intro bs r h; rw [stripLit] at h; injection h with h; subst h; exact le_rfl
  | cons x ws ih =>
    intro bs r h
    cases bs with
    | nil => rw [stripLit] at h; exact Option.noConfusion h
    | cons b bs =>
      rw [stripLit] at h
      split at h
      · exact (ih bs r h).trans (Nat.le_succ _)
      · exact Option.noConfusion h

/-- Bytes of a numeric literal after its first byte. -/
def isNumByte (b : Nat) : Bool :=
  isDigitB b || b == 46 || b == 101 || b == 69 || b == 43 || b == 45

/-- Modelled from the spec: the fflib tokenizer.  Whitespace is skipped;
punctuation maps to the structural tokens; a quote starts a captured
string; `true`/`false`/`null` are the literal tokens; a digit or minus
starts a number, a `double` when it contains a fraction or exponent
byte; anything else is a lexer fault. -/
def lexBytes : List Nat → List FFTok
  | [] => []
  | b :: bs =>
    if b = 32 ∨ b = 9 ∨ b = 10 ∨ b = 13 then lexBytes bs
    else if b = 123 then FFTok.leftBracket :: lexBytes bs
    else if b = 125 then FFTok.rightBracket :: lexBytes bs
    else if b = 91 then FFTok.leftBrace :: lexBytes bs
    else if b = 93 then FFTok.rightBrace :: lexBytes bs
    else if b = 44 then FFTok.comma :: lexBytes bs
    else if b = 58 then FFTok.colon :: lexBytes bs
    else if b = 34 then
      match h : readStringBytes bs with
      | some (c, r) => FFTok.string c :: lexBytes r
      | none => [FFTok.error]
    else if b = 116 then
      match h : stripLit (strB "rue") bs with
      | some r => FFTok.bool (strB "true") :: lexBytes r
      | none => [FFTok.error]
    else if b = 102 then
      match h : stripLit (strB "alse") bs with
      | some r => FFTok.bool (strB "false") :: lexBytes r
      | none => [FFTok.error]
    else if b = 110 then
      match h : stripLit (strB "ull") bs with
      | some r => FFTok.null :: lexBytes r
      | none => [FFTok.error]
    else if isDigitB b ∨ b = 45 then
      (if (b :: bs.takeWhile isNumByte).any
            (fun x => x = 46 ∨ x = 101 ∨ x = 69) then
         FFTok.double (b :: bs.takeWhile isNumByte)
       else FFTok.integer (b :: bs.takeWhile isNumByte))
      :: lexBytes (bs.dropWhile isNumByte)
    else [FFTok.error]
  termination_by l => l.length
  decreasing_by
  all_goals simp only [List.length_cons]
  all_goals try omega
  all_goals
    first
      | exact Nat.lt_succ_of_lt (readStringBytes_length_lt _ _ _ h)
      | exact Nat.lt_succ_of_le (stripLit_length_le _ _ _ h)
      | exact Nat.lt_succ_of_le (dropWhile_length_le _ _)

/-- `Emoji.UnmarshalJSON` on a fresh receiver: tokenize the input and
run the decode state machine. -/
def Emoji.UnmarshalJSON (input : List Nat) : Except DecErr Emoji :=
  Emoji.UnmarshalJSONToks (lexBytes input)

/-! ## Sticker and TagList (`discord/message.go`) -/

/-- Go `unicode.IsSpace` over the Latin-1 range (space, tab, newline,
vertical tab, form feed, carriage return, NEL, NBSP); the higher
White_Space code points of the Go table play no role in the claims. -/
def goIsSpace (c : Char) : Bool :=
  c.toNat == 32 || c.toNat == 9 || c.toNat == 10 || c.toNat == 11 ||
  c.toNat == 12 || c.toNat == 13 || c.toNat == 133 || c.toNat == 160

/-- Go `strings.Split(s, ",")`: the substrings between commas;
`Split("", ",")` is `[""]`. -/
def goSplitComma : List Char → List (List Char)
  | [] => [[]]
  | c :: cs =>
    if c = ',' then [] :: goSplitComma cs
    else
      match goSplitComma cs with
      | t :: ts => (c :: t) :: ts
      | [] => [[c]]

/-- Go `strings.TrimSpace`: drop whitespace from both ends. -/
def goTrimSpace (l : List Char) : List Char :=
  ((l.dropWhile goIsSpace).reverse.dropWhile goIsSpace).reverse

/-- `discord.Sticker` (identifier and enum fields typed as naturals,
strings as char lists). -/
structure Sticker where
  ID : Nat
  PackID : Nat
  Name : List Char
  Description : List Char
  Tags : List Char
  Type' : Nat
  FormatType : Nat
  Available : Bool
  GuildID : Nat
  User : Option User
  SortValue : Option Int

/-- `Sticker.TagList`: `strings.Split(s.Tags, ",")`, then
`strings.TrimSpace` applied to every element. -/
def Sticker.TagList (s : Sticker) : List (List Char) :=
  (goSplitComma s.Tags).map goTrimSpace

/-- Comma-separated reconstruction of a list of segments.  Modelled from
the spec: the independent inverse of `strings.Split(s, ",")` used to state
that `TagList` returns exactly the comma-separated segments of `Tags`. -/
def joinComma : List (List Char) → List Char
  | [] => []
  | t :: ts =>
    t ++ (match ts with
          | [] => []
          | _ :: _ => ',' :: joinComma ts)

/-! ## Arbitrary JSON values

Used to quantify over the shapes an unrecognized key's value can take
(scalar, nested object, array). -/

mutual
/-- An arbitrary JSON value, by its token stream shape. -/
inductive Json where
  | str (s : List Nat)
  | num (s : List Nat)
  | boolean (s : List Nat)
  | null
  | arr (elems : JsonList)
  | obj (fields : JsonObj)

/-- A list of JSON values (array elements). -/
inductive JsonList where
  | nil
  | cons (hd : Json) (tl : JsonList)

/-- A list of key/value pairs (object fields). -/
inductive JsonObj where
  | nil
  | cons (k : List Nat) (v : Json) (tl : JsonObj)
end

mutual
/-- The token stream of a JSON value. -/
def Json.toks : Json → List FFTok
  | .str s => [FFTok.string s]
  | .num s => [FFTok.integer s]
  | .boolean s => [FFTok.bool s]
  | .null => [FFTok.null]
  | .arr es => FFTok.leftBrace :: (JsonList.toks es ++ [FFTok.rightBrace])
  | .obj fs => FFTok.leftBracket :: (JsonObj.toks fs ++ [FFTok.rightBracket])

/-- The token stream of comma-separated array elements. -/
def JsonList.toks : JsonList → List FFTok
  | .nil => []
  | .cons v tl =>
    Json.toks v ++
      (match tl with
       | .nil => []
       | .cons _ _ => FFTok.comma :: JsonList.toks tl)

/-- The token stream of comma-separated object fields. -/
def JsonObj.toks : JsonObj → List FFTok
  | .nil => []
  | .cons k v tl =>
    FFTok.string k :: FFTok.colon :: Json.toks v ++
      (match tl with
       | .nil => []
       | .cons _ _ _ => FFTok.comma :: JsonObj.toks tl)
end

/-- Depth bookkeeping for `splitBalanced`: `balancedTail k ts` holds when
scanning `ts` from open-bracket depth `k` never drops below depth zero,
never meets a lexer fault, and ends exactly at depth zero. -/
def balancedTail : Nat → List FFTok → Bool
  | k, [] => k = 0
  | k, t :: ts =>
    if t = .leftBracket ∨ t = .leftBrace then balancedTail (k + 1) ts
    else if t = .rightBracket ∨ t = .rightBrace then
      decide (1 ≤ k) && balancedTail (k - 1) ts
    else if t = .error then false
    else balancedTail k ts

mutual

theorem json_toks_balanced : ∀ (v : Json) (k : Nat) (ys : List FFTok),
    balancedTail k ys = true → balancedTail k (Json.toks v ++ ys) = true
  | .str s, k, ys, h => by simp [Json.toks, balancedTail, h]
  | .num s, k, ys, h => by simp [Json.toks, balancedTail, h]
  | .boolean s, k, ys, h => by simp [Json.toks, balancedTail, h]
  | .null, k, ys, h => by simp [Json.toks, balancedTail, h]
  | .arr es, k, ys, h => by
      have h2 : balancedTail (k + 1) (FFTok.rightBrace :: ys) = true := by
        simp [balancedTail, h]
      have h3 := jsonList_toks_balanced es (k + 1) (FFTok.rightBrace :: ys) h2
      simp only [Json.toks, List.cons_append, List.append_assoc,
        List.singleton_append]
      simp [balancedTail, h3]
  | .obj fs, k, ys, h => by
      have h2 : balancedTail (k + 1) (FFTok.rightBracket :: ys) = true := by
        simp [balancedTail, h]
      have h3 := jsonObj_toks_balanced fs (k + 1) (FFTok.rightBracket :: ys) h2
      simp only [Json.toks, List.cons_append, List.append_assoc,
        List.singleton_append]
      simp [balancedTail, h3]

theorem jsonList_toks_balanced : ∀ (l : JsonList) (k : Nat) (ys : List FFTok),
    balancedTail k ys = true → balancedTail k (JsonList.toks l ++ ys) = true
  | .nil, k, ys, h => by simpa [JsonList.toks] using h
  | .cons v tl, k, ys, h => by
      cases tl with
      | nil =>
          have h3 := json_toks_balanced v k ys h
          simpa [JsonList.toks] using h3
      | cons v2 tl2 =>
          have h2 : balancedTail k
              (JsonList.toks (JsonList.cons v2 tl2) ++ ys) = true :=
            jsonList_toks_balanced (JsonList.cons v2 tl2) k ys h
          have hcm : balancedTail k
              (FFTok.comma ::
                (JsonList.toks (JsonList.cons v2 tl2) ++ ys)) = true := by
            simpa [balancedTail] using h2
          have h3 := json_toks_balanced v k _ hcm
          have htl : JsonList.toks (JsonList.cons v (JsonList.cons v2 tl2)) =
              Json.toks v ++
                (FFTok.comma :: JsonList.toks (JsonList.cons v2 tl2)) := by
            rw [JsonList.toks]
          rw [htl, List.append_assoc, List.cons_append]
          exact h3

theorem jsonObj_toks_balanced : ∀ (o : JsonObj) (k : Nat) (ys : List FFTok),
    balancedTail k ys = true → balancedTail k (JsonObj.toks o ++ ys) = true
  | .nil, k, ys, h => by simpa [JsonObj.toks] using h
  | .cons key v tl, k, ys, h => by
      cases tl with
      | nil =>
          have h3 := json_toks_balanced v k ys h
          simp only [JsonObj.toks, List.append_nil, List.cons_append]
          simp [balancedTail, h3]
      | cons k2 v2 tl2 =>
          have h2 : balancedTail k
              (JsonObj.toks (JsonObj.cons k2 v2 tl2) ++ ys) = true :=
            jsonObj_toks_balanced (JsonObj.cons k2 v2 tl2) k ys h
          have hcm : balancedTail k
              (FFTok.comma ::
                (JsonObj.toks (JsonObj.cons k2 v2 tl2) ++ ys)) = true := by
            simpa [balancedTail] using h2
          have h3 := json_toks_balanced v k _ hcm
          have htl : JsonObj.toks (JsonObj.cons key v (JsonObj.cons k2 v2 tl2)) =
              (FFTok.string key :: FFTok.colon :: Json.toks v) ++
                (FFTok.comma :: JsonObj.toks (JsonObj.cons k2 v2 tl2)) := by
            rw [JsonObj.toks]
          rw [htl, List.append_assoc]
          simp only [List.cons_append]
          simp [balancedTail, h3]

end

/-- A balanced error-free token span passes transparently through
`splitBalanced` when the running depth is at least one. -/
theorem splitBalanced_pass :
    ∀ (ts : List FFTok) (k d : Nat) (rest : List FFTok),
      balancedTail k ts = true → 1 ≤ d →
      splitBalanced (d + k) (ts ++ rest) =
        (splitBalanced d rest).map (fun p => (ts ++ p.1, p.2)) := by
  intro ts
  induction ts with
  | nil =>
    intro k d rest hb hd
    simp only [balancedTail, decide_eq_true_eq] at hb
    subst hb
    cases hsp : splitBalanced d rest with
    | none => simp [hsp]
    | some p => simp [hsp]
  | cons t ts ih =>
    intro k d rest hb hd
    simp only [balancedTail] at hb
    simp only [List.cons_append, splitBalanced]
    split
    next hop =>
      rw [if_pos hop] at hb
      have hih := ih (k + 1) d rest hb hd
      rw [← Nat.add_assoc] at hih
      simp only [List.append_eq]
      rw [hih]
      cases splitBalanced d rest <;> simp
    next hop =>
      rw [if_neg hop] at hb
      split
      next hcl =>
        rw [if_pos hcl] at hb
        simp only [Bool.and_eq_true, decide_eq_true_eq] at hb
        obtain ⟨hk, hb⟩ := hb
        rw [if_neg (by omega)]
        have hih := ih (k - 1) d rest hb hd
        rw [show d + (k - 1) = d + k - 1 from by omega] at hih
        simp only [List.append_eq]
        rw [hih]
        cases splitBalanced d rest <;> simp
      next hcl =>
        rw [if_neg hcl] at hb
        split
        next herr =>
          rw [if_pos herr] at hb
          exact absurd hb (by simp)
        next herr =>
          rw [if_neg herr] at hb
          have hih := ih k d rest hb hd
          simp only [List.append_eq]
          rw [hih]
          cases splitBalanced d rest <;> simp

theorem splitBalanced_pass0 (ts rest : List FFTok)
    (hb : balancedTail 0 ts = true) :
    splitBalanced 1 (ts ++ rest) =
      (splitBalanced 1 rest).map (fun p => (ts ++ p.1, p.2)) :=
  splitBalanced_pass ts 0 1 rest hb (le_refl 1)

/-! ## Step lemmas for the decode state machine -/

theorem stepMapStart (j : Emoji) (key : EmojiKey) (ts : List FFTok) :
    Emoji.UnmarshalJSONFFLexer j .mapStart key (FFTok.leftBracket :: ts) =
      Emoji.UnmarshalJSONFFLexer j .wantKey key ts := by
  rw [Emoji.UnmarshalJSONFFLexer.eq_def]
  simp

theorem stepWantKeyString (j : Emoji) (key : EmojiKey) (kn : List Nat)
    (ts : List FFTok) :
    Emoji.UnmarshalJSONFFLexer j .wantKey key (FFTok.string kn :: ts) =
      Emoji.UnmarshalJSONFFLexer j .wantColon (matchEmojiKey kn) ts := by
  rw [Emoji.UnmarshalJSONFFLexer.eq_def]
  simp

theorem stepWantKeyClose (j : Emoji) (key : EmojiKey) (ts : List FFTok) :
    Emoji.UnmarshalJSONFFLexer j .wantKey key (FFTok.rightBracket :: ts) =
      .ok (j, ts) := by
  rw [Emoji.UnmarshalJSONFFLexer.eq_def]
  simp

theorem stepWantColon (j : Emoji) (key : EmojiKey) (ts : List FFTok) :
    Emoji.UnmarshalJSONFFLexer j .wantColon key (FFTok.colon :: ts) =
      Emoji.UnmarshalJSONFFLexer j .wantValue key ts := by
  rw [Emoji.UnmarshalJSONFFLexer.eq_def]
  simp

theorem stepAfterComma (j : Emoji) (key : EmojiKey) (ts : List FFTok) :
    Emoji.UnmarshalJSONFFLexer j .afterValue key (FFTok.comma :: ts) =
      Emoji.UnmarshalJSONFFLexer j .wantKey key ts := by
  rw [Emoji.UnmarshalJSONFFLexer.eq_def]
  simp

theorem stepAfterClose (j : Emoji) (key : EmojiKey) (ts : List FFTok) :
    Emoji.UnmarshalJSONFFLexer j .afterValue key (FFTok.rightBracket :: ts) =
      .ok (j, ts) := by
  rw [Emoji.UnmarshalJSONFFLexer.eq_def]
  simp

theorem stepValueIDString (j : Emoji) (s : List Nat) (ts : List FFTok)
    (n : Nat) (hsf : Snowflake.UnmarshalJSON (34 :: (s ++ [34])) = .ok n) :
    Emoji.UnmarshalJSONFFLexer j .wantValue .ID (FFTok.string s :: ts) =
      Emoji.UnmarshalJSONFFLexer { j with ID := n } .afterValue .ID ts := by
  rw [Emoji.UnmarshalJSONFFLexer.eq_def]
  simp [valueTok, captureField, renderTok]
  rw [hsf]

theorem stepValueName (j : Emoji) (s : List Nat) (ts : List FFTok) :
    Emoji.UnmarshalJSONFFLexer j .wantValue .Name (FFTok.string s :: ts) =
      Emoji.UnmarshalJSONFFLexer { j with Name := s } .afterValue .Name ts := by
  rw [Emoji.UnmarshalJSONFFLexer.eq_def]
  simp [valueTok]

theorem stepValueNameBad (j : Emoji) (t : FFTok) (ts : List FFTok)
    (hv : valueTok t = true) (hs : ∀ s, t ≠ FFTok.string s)
    (hn : t ≠ FFTok.null) :
    Emoji.UnmarshalJSONFFLexer j .wantValue .Name (t :: ts) =
      .error .typeMismatch := by
  rw [Emoji.UnmarshalJSONFFLexer.eq_def]
  cases t <;> simp_all [valueTok]

theorem stepValueRolesNull (j : Emoji) (ts : List FFTok) :
    Emoji.UnmarshalJSONFFLexer j .wantValue .RoleIDs (FFTok.null :: ts) =
      Emoji.UnmarshalJSONFFLexer { j with RoleIDs := none }
        .afterValue .RoleIDs ts := by
  rw [Emoji.UnmarshalJSONFFLexer.eq_def]
  simp [valueTok]

theorem stepValueRolesArr (j : Emoji) (ts : List FFTok) (ids : List Nat)
    (rest : List FFTok) (hr : rolesLoop true [] ts = .ok (ids, rest)) :
    Emoji.UnmarshalJSONFFLexer j .wantValue .RoleIDs (FFTok.leftBrace :: ts) =
      Emoji.UnmarshalJSONFFLexer { j with RoleIDs := some ids }
        .afterValue .RoleIDs rest := by
  rw [Emoji.UnmarshalJSONFFLexer.eq_def]
  simp [valueTok]
  split
  next ids2 rest2 hr2 =>
    rw [hr] at hr2
    injection hr2 with hp
    obtain ⟨hp1, hp2⟩ := Prod.mk.injEq .. ▸ hp
    subst hp1
    subst hp2
    rfl
  next e2 hr2 =>
    rw [hr] at hr2
    exact Except.noConfusion hr2

theorem stepValueUser (j : Emoji) (t : FFTok) (ts : List FFTok) (u2 : User)
    (rest : List FFTok) (hv : valueTok t = true) (hn : t ≠ FFTok.null)
    (hu : User.UnmarshalJSONFFLexer j.User .wantKey false ts = .ok (u2, rest)) :
    Emoji.UnmarshalJSONFFLexer j .wantValue .User (t :: ts) =
      Emoji.UnmarshalJSONFFLexer { j with User := u2 } .afterValue .User rest := by
  rw [Emoji.UnmarshalJSONFFLexer.eq_def]
  cases t <;> simp_all [valueTok] <;>
    (split
     next u3 rest2 hu2 =>
       rw [hu] at hu2
       injection hu2 with hp
       obtain ⟨hp1, hp2⟩ := Prod.mk.injEq .. ▸ hp
       subst hp1
       subst hp2
       rfl
     next e2 hu2 =>
       rw [hu] at hu2
       exact Except.noConfusion hu2)

theorem stepValueUserErr (j : Emoji) (t : FFTok) (ts : List FFTok)
    (e : DecErr) (hv : valueTok t = true) (hn : t ≠ FFTok.null)
    (hu : User.UnmarshalJSONFFLexer j.User .wantKey false ts = .error e) :
    Emoji.UnmarshalJSONFFLexer j .wantValue .User (t :: ts) = .error e := by
  rw [Emoji.UnmarshalJSONFFLexer.eq_def]
  cases t <;> simp_all [valueTok] <;>
    (split
     next u3 rest2 hu2 =>
       rw [hu] at hu2
       exact Except.noConfusion hu2
     next e2 hu2 =>
       rw [hu] at hu2
       injection hu2 with he
       subst he
       rfl)

theorem stepValueRequireColons (j : Emoji) (t : FFTok) (ts : List FFTok)
    (b : Bool) (hb : decodeBoolToken t j.RequireColons = .ok b)
    (hv : valueTok t = true) :
    Emoji.UnmarshalJSONFFLexer j .wantValue .RequireColons (t :: ts) =
      Emoji.UnmarshalJSONFFLexer { j with RequireColons := b }
        .afterValue .RequireColons ts := by
  rw [Emoji.UnmarshalJSONFFLexer.eq_def]
  cases t <;> simp_all [valueTok, hb]

theorem stepValueRequireColonsErr (j : Emoji) (t : FFTok) (ts : List FFTok)
    (e : DecErr) (hb : decodeBoolToken t j.RequireColons = .error e)
    (hv : valueTok t = true) :
    Emoji.UnmarshalJSONFFLexer j .wantValue .RequireColons (t :: ts) =
      .error e := by
  rw [Emoji.UnmarshalJSONFFLexer.eq_def]
  cases t <;> simp_all [valueTok, hb]

theorem stepValueManaged (j : Emoji) (t : FFTok) (ts : List FFTok)
    (b : Bool) (hb : decodeBoolToken t j.Managed = .ok b)
    (hv : valueTok t = true) :
    Emoji.UnmarshalJSONFFLexer j .wantValue .Managed (t :: ts) =
      Emoji.UnmarshalJSONFFLexer { j with Managed := b }
        .afterValue .Managed ts := by
  rw [Emoji.UnmarshalJSONFFLexer.eq_def]
  cases t <;> simp_all [valueTok, hb]

theorem stepValueManagedErr (j : Emoji) (t : FFTok) (ts : List FFTok)
    (e : DecErr) (hb : decodeBoolToken t j.Managed = .error e)
    (hv : valueTok t = true) :
    Emoji.UnmarshalJSONFFLexer j .wantValue .Managed (t :: ts) = .error e := by
  rw [Emoji.UnmarshalJSONFFLexer.eq_def]
  cases t <;> simp_all [valueTok, hb]

theorem stepValueAnimated (j : Emoji) (t : FFTok) (ts : List FFTok)
    (b : Bool) (hb : decodeBoolToken t j.Animated = .ok b)
    (hv : valueTok t = true) :
    Emoji.UnmarshalJSONFFLexer j .wantValue .Animated (t :: ts) =
      Emoji.UnmarshalJSONFFLexer { j with Animated := b }
        .afterValue .Animated ts := by
  rw [Emoji.UnmarshalJSONFFLexer.eq_def]
  cases t <;> simp_all [valueTok, hb]

theorem stepValueAnimatedErr (j : Emoji) (t : FFTok) (ts : List FFTok)
    (e : DecErr) (hb : decodeBoolToken t j.Animated = .error e)
    (hv : valueTok t = true) :
    Emoji.UnmarshalJSONFFLexer j .wantValue .Animated (t :: ts) = .error e := by
  rw [Emoji.UnmarshalJSONFFLexer.eq_def]
  cases t <;> simp_all [valueTok, hb]

theorem stepValueAvailable (j : Emoji) (t : FFTok) (ts : List FFTok)
    (b : Bool) (hb : decodeBoolToken t j.Available = .ok b)
    (hv : valueTok t = true) :
    Emoji.UnmarshalJSONFFLexer j .wantValue .Available (t :: ts) =
      Emoji.UnmarshalJSONFFLexer { j with Available := b }
        .afterValue .Available ts := by
  rw [Emoji.UnmarshalJSONFFLexer.eq_def]
  cases t <;> simp_all [valueTok, hb]

theorem stepValueAvailableErr (j : Emoji) (t : FFTok) (ts : List FFTok)
    (e : DecErr) (hb : decodeBoolToken t j.Available = .error e)
    (hv : valueTok t = true) :
    Emoji.UnmarshalJSONFFLexer j .wantValue .Available (t :: ts) =
      .error e := by
  rw [Emoji.UnmarshalJSONFFLexer.eq_def]
  cases t <;> simp_all [valueTok, hb]

theorem stepValueSkip (j : Emoji) (t : FFTok) (ts : List FFTok)
    (rest : List FFTok) (hv : valueTok t = true)
    (hs : skipValue t ts = some rest) :
    Emoji.UnmarshalJSONFFLexer j .wantValue .nosuchkey (t :: ts) =
      Emoji.UnmarshalJSONFFLexer j .afterValue .nosuchkey rest := by
  rw [Emoji.UnmarshalJSONFFLexer.eq_def]
  cases t <;> simp_all [valueTok] <;>
    (split
     next rest2 hs2 =>
       rw [hs] at hs2
       injection hs2 with hr
       subst hr
       rfl
     next hs2 =>
       rw [hs] at hs2
       exact Option.noConfusion hs2)

/-! ## Decimal round trip for the Snowflake codec -/

theorem foldr_eq_ofDigits :
    ∀ l : List Nat, List.foldr (fun d a => a * 10 + d) 0 l = Nat.ofDigits 10 l := by
  intro l
  induction l with
  | nil => simp [Nat.ofDigits]
  | cons d l ih =>
    simp only [List.foldr_cons, Nat.ofDigits_cons, ih]
    omega

theorem decVal_natToDec (n : Nat) : decVal (natToDec n) = n := by
  by_cases h0 : n = 0
  · subst h0; decide
  · unfold natToDec decVal
    rw [if_neg h0]
    rw [List.foldl_map]
    have : ∀ (a d : Nat), a * 10 + (d + 48 - 48) = a * 10 + d := by
      intro a d; omega
    simp only [this]
    rw [List.foldl_reverse]
    have := foldr_eq_ofDigits (Nat.digits 10 n)
    simp only [this]
    exact Nat.ofDigits_digits 10 n

theorem natToDec_ne_nil (n : Nat) : natToDec n ≠ [] := by
  unfold natToDec
  split
  · simp
  · rename_i hn
    have h2 : Nat.digits 10 n ≠ [] := (@Nat.digits_ne_nil_iff_ne_zero 10 n).mpr hn
    simp [h2]

theorem natToDec_digits (n : Nat) :
    ∀ b ∈ natToDec n, 48 ≤ b ∧ b ≤ 57 := by
  intro b hb
  unfold natToDec at hb
  split at hb
  · simp at hb; omega
  · simp only [List.mem_map, List.mem_reverse] at hb
    obtain ⟨d, hd, rfl⟩ := hb
    have : d < 10 := Nat.digits_lt_base (by norm_num) hd
    omega

theorem natToDec_all_isDigitB (n : Nat) : (natToDec n).all isDigitB = true := by
  rw [List.all_eq_true]
  intro b hb
  have := natToDec_digits n b hb
  simp [isDigitB]
  omega

theorem snowflake_roundtrip (n : Nat) (h : n < 2 ^ 64) :
    Snowflake.UnmarshalJSON (34 :: (natToDec n ++ [34])) = .ok n := by
  rw [Snowflake.UnmarshalJSON]
  rw [List.getLast?_concat]
  rw [if_pos rfl]
  rw [List.dropLast_concat]
  rw [parseDec]
  rw [if_pos ⟨natToDec_ne_nil n, natToDec_all_isDigitB n,
        by rw [decVal_natToDec]; exact h⟩]
  rw [decVal_natToDec]

/-! ## Running the roles element loop on encoder-shaped tokens -/

/-- The token image of the encoder's roles array elements: quoted
snowflake strings separated by commas. -/
def roleElemToks : List Nat → List FFTok
  | [] => []
  | [x] => [FFTok.string (natToDec x)]
  | x :: y :: t => FFTok.string (natToDec x) :: FFTok.comma ::
      roleElemToks (y :: t)

theorem rlStepString (w : Bool) (acc : List Nat) (s : List Nat)
    (ts : List FFTok) (n : Nat)
    (hsf : Snowflake.UnmarshalJSON (34 :: (s ++ [34])) = .ok n) :
    rolesLoop w acc (FFTok.string s :: ts) = rolesLoop false (acc ++ [n]) ts := by
  rw [rolesLoop]
  simp [captureField, renderTok]
  split
  next n2 hsf2 =>
    rw [hsf] at hsf2
    injection hsf2 with hn
    subst hn
    rfl
  next e2 hsf2 =>
    rw [hsf] at hsf2
    exact Except.noConfusion hsf2

theorem rlStepComma (acc : List Nat) (ts : List FFTok) :
    rolesLoop false acc (FFTok.comma :: ts) = rolesLoop false acc ts := by
  rw [rolesLoop]
  simp

theorem rlStepClose (w : Bool) (acc : List Nat) (ts : List FFTok) :
    rolesLoop w acc (FFTok.rightBrace :: ts) = .ok (acc, ts) := by
  rw [rolesLoop]
  simp

theorem rolesRun :
    ∀ (l acc : List Nat) (w : Bool) (rest : List FFTok),
      (∀ x ∈ l, x < 2 ^ 64) →
      rolesLoop w acc (roleElemToks l ++ FFTok.rightBrace :: rest) =
        .ok (acc ++ l, rest) := by
  intro l
  induction l with
  | nil => intro acc w rest hb; simp [roleElemToks, rlStepClose]
  | cons x l ih =>
    intro acc w rest hb
    cases l with
    | nil =>
      have hx : x < 2 ^ 64 := hb x (by simp)
      simp only [roleElemToks, List.cons_append, List.nil_append]
      rw [rlStepString w acc (natToDec x) _ x
        (snowflake_roundtrip x hx)]
      simp [rlStepClose]
    | cons y t =>
      have hx : x < 2 ^ 64 := hb x (by simp)
      simp only [roleElemToks, List.cons_append]
      rw [rlStepString w acc (natToDec x) _ x
        (snowflake_roundtrip x hx)]
      rw [rlStepComma]
      rw [ih (acc ++ [x]) false rest (by intro z hz; exact hb z (by simp [hz]))]
      simp

/-! ## Running the modelled User decoder on its encoder-shaped tokens -/

theorem ulStepKeyString (u : User) (isID : Bool) (kn : List Nat)
    (ts : List FFTok) :
    User.UnmarshalJSONFFLexer u .wantKey isID (FFTok.string kn :: ts) =
      User.UnmarshalJSONFFLexer u .wantColon (matchUserKey kn) ts := by
  rw [User.UnmarshalJSONFFLexer.eq_def]
  simp

theorem ulStepColon (u : User) (isID : Bool) (ts : List FFTok) :
    User.UnmarshalJSONFFLexer u .wantColon isID (FFTok.colon :: ts) =
      User.UnmarshalJSONFFLexer u .wantValue isID ts := by
  rw [User.UnmarshalJSONFFLexer.eq_def]
  simp

theorem ulStepValueIDString (u : User) (s : List Nat) (ts : List FFTok)
    (n : Nat) (hsf : Snowflake.UnmarshalJSON (34 :: (s ++ [34])) = .ok n) :
    User.UnmarshalJSONFFLexer u .wantValue true (FFTok.string s :: ts) =
      User.UnmarshalJSONFFLexer { ID := n } .afterValue true ts := by
  rw [User.UnmarshalJSONFFLexer.eq_def]
  simp [valueTok, captureField, renderTok]
  split
  next n2 hsf2 =>
    rw [hsf] at hsf2
    injection hsf2 with hn
    subst hn
    rfl
  next e2 hsf2 =>
    rw [hsf] at hsf2
    exact Except.noConfusion hsf2

theorem ulStepAfterClose (u : User) (isID : Bool) (ts : List FFTok) :
    User.UnmarshalJSONFFLexer u .afterValue isID (FFTok.rightBracket :: ts) =
      .ok (u, ts) := by
  rw [User.UnmarshalJSONFFLexer.eq_def]
  simp

theorem userRun (u : User) (n : Nat) (rest : List FFTok) (h : n < 2 ^ 64) :
    User.UnmarshalJSONFFLexer u .wantKey false
        (FFTok.string (strB "id") :: FFTok.colon ::
          FFTok.string (natToDec n) :: FFTok.rightBracket :: rest) =
      .ok ({ ID := n }, rest) := by
  rw [ulStepKeyString]
  have hm : matchUserKey (strB "id") = true := by decide
  rw [hm]
  rw [ulStepColon]
  rw [ulStepValueIDString u (natToDec n) _ n (snowflake_roundtrip n h)]
  rw [ulStepAfterClose]

/-! ## The encoder output in rewind-free form -/

/-- The buffer contents of `Emoji.MarshalJSONBuf` with the
`Rewind(1)` of the unconditional trailing commas already resolved:
every present field group is preceded by the comma that separates it
from its predecessor, and no comma precedes the closing brace. -/
theorem marshalBuf_eq (j : Emoji) :
    j.MarshalJSONBuf =
      strB "\x7b \"id\":" ++ Snowflake.MarshalJSON j.ID
      ++ strB ",\"name\":" ++ writeJsonString j.Name
      ++ (if roleLen j.RoleIDs ≠ 0 then
            [44] ++ strB "\"roles\":"
            ++ (match j.RoleIDs with
                | some l => [91] ++ rolesElems l ++ [93]
                | none => strB "null")
          else [])
      ++ [44] ++ strB "\"user\":" ++ User.MarshalJSONBuf j.User
      ++ (if j.RequireColons then [44] ++ strB "\"require_colons\":true"
          else [])
      ++ (if j.Managed then [44] ++ strB "\"managed\":true" else [])
      ++ (if j.Animated then [44] ++ strB "\"animated\":true" else [])
      ++ (if j.Available then [44] ++ strB "\"available\":true" else [])
      ++ [125] := by
  obtain ⟨id0, nm0, rl0, us0, rc0, mg0, an0, av0⟩ := j
  rcases rl0 with _ | l
  case _ =>
    cases rc0 <;> cases mg0 <;> cases an0 <;> cases av0 <;>
      (simp only [Emoji.MarshalJSONBuf, roleLen, ne_eq, Bool.false_eq_true,
        Bool.true_eq_false, eq_self_iff_true,
        not_false_eq_true, not_true_eq_false, if_pos, if_neg, if_true,
        if_false, ite_true, ite_false, List.append_nil, List.nil_append,
        reduceIte, ← List.append_assoc]
       rw [List.dropLast_concat]
       try simp [List.append_assoc])
  case _ =>
    rcases l with _ | ⟨x, xs⟩ <;>
      cases rc0 <;> cases mg0 <;> cases an0 <;> cases av0 <;>
      (simp only [Emoji.MarshalJSONBuf, roleLen, ne_eq, Bool.false_eq_true,
        Bool.true_eq_false, eq_self_iff_true,
        not_false_eq_true, not_true_eq_false, if_pos, if_neg, if_true,
        if_false, ite_true, ite_false, List.append_nil, List.nil_append,
        List.length_cons, List.length_nil, reduceIte,
        ← List.append_assoc]
       rw [List.dropLast_concat]
       try simp [List.append_assoc])

/-! ## Lexing the encoder's output -/

/-- Content bytes that neither the string escaper nor the string reader
treats specially: printable, not a quote, not a backslash. -/
def plainByte (b : Nat) : Bool := 32 ≤ b && !(b == 34) && !(b == 92)

theorem escByte_plain (b : Nat) (h : plainByte b = true) : escByte b = [b] := by
  have h34 : ¬ b = 34 := by simp [plainByte] at h; omega
  have h92 : ¬ b = 92 := by simp [plainByte] at h; omega
  have h32 : ¬ b < 32 := by simp [plainByte] at h; omega
  simp [escByte, h34, h92, h32]

theorem writeJsonString_plain (s : List Nat)
    (h : ∀ b ∈ s, plainByte b = true) :
    writeJsonString s = 34 :: (s ++ [34]) := by
  unfold writeJsonString
  have : (s.map escByte).flatten = s := by
    induction s with
    | nil => simp
    | cons b s ih =>
      simp only [List.map_cons, List.flatten_cons]
      rw [escByte_plain b (h b (by simp))]
      rw [ih (fun x hx => h x (by simp [hx]))]
      rfl
  rw [this]
  simp


theorem readStringBytes_cons_plain (b : Nat) (l : List Nat)
    (h : plainByte b = true) :
    readStringBytes (b :: l) =
      (readStringBytes l).map (fun p => (b :: p.1, p.2)) := by
  have h34 : b ≠ 34 := by simp [plainByte] at h; omega
  have h92 : b ≠ 92 := by simp [plainByte] at h; omega
  rw [readStringBytes.eq_def]
  split
  all_goals (rename_i heq)
  all_goals
    first
      | exact List.noConfusion heq
      | (injection heq with hb hl
         first
           | exact absurd hb h34
           | exact absurd hb h92
           | (subst hb; subst hl; rfl))

theorem readStringBytes_plain (s bs : List Nat)
    (h : ∀ b ∈ s, plainByte b = true) :
    readStringBytes (s ++ 34 :: bs) = some (s, bs) := by
  induction s with
  | nil => rfl
  | cons b s ih =>
    rw [List.cons_append]
    rw [readStringBytes_cons_plain b _ (h b (by simp))]
    rw [ih (fun x hx => h x (by simp [hx]))]
    rfl

theorem lex_ws (bs : List Nat) : lexBytes (32 :: bs) = lexBytes bs := by
  rw [lexBytes]
  simp

theorem lex_lb (bs : List Nat) :
    lexBytes (123 :: bs) = FFTok.leftBracket :: lexBytes bs := by
  rw [lexBytes]
  simp

theorem lex_rb (bs : List Nat) :
    lexBytes (125 :: bs) = FFTok.rightBracket :: lexBytes bs := by
  rw [lexBytes]
  simp

theorem lex_lbr (bs : List Nat) :
    lexBytes (91 :: bs) = FFTok.leftBrace :: lexBytes bs := by
  rw [lexBytes]
  simp

theorem lex_rbr (bs : List Nat) :
    lexBytes (93 :: bs) = FFTok.rightBrace :: lexBytes bs := by
  rw [lexBytes]
  simp

theorem lex_comma (bs : List Nat) :
    lexBytes (44 :: bs) = FFTok.comma :: lexBytes bs := by
  rw [lexBytes]
  simp

theorem lex_colon (bs : List Nat) :
    lexBytes (58 :: bs) = FFTok.colon :: lexBytes bs := by
  rw [lexBytes]
  simp

theorem lex_true (bs : List Nat) :
    lexBytes (116 :: 114 :: 117 :: 101 :: bs) =
      FFTok.bool (strB "true") :: lexBytes bs := by
  rw [lexBytes]
  simp
  split
  next r heq =>
    have hx : stripLit (strB "rue") (114 :: 117 :: 101 :: bs) = some bs := rfl
    rw [hx] at heq
    injection heq with hr
    subst hr
    rfl
  next heq =>
    have hx : stripLit (strB "rue") (114 :: 117 :: 101 :: bs) = some bs := rfl
    rw [hx] at heq
    exact Option.noConfusion heq

theorem lex_string_plain (s : List Nat) (bs : List Nat)
    (h : ∀ b ∈ s, plainByte b = true) :
    lexBytes (34 :: (s ++ 34 :: bs)) = FFTok.string s :: lexBytes bs := by
  rw [lexBytes]
  simp
  split
  next c r heq =>
    rw [readStringBytes_plain s bs h] at heq
    injection heq with hp
    obtain ⟨hp1, hp2⟩ := Prod.mk.injEq .. ▸ hp
    subst hp1
    subst hp2
    rfl
  next heq =>
    rw [readStringBytes_plain s bs h] at heq
    exact Option.noConfusion heq

theorem natToDec_plain (n : Nat) : ∀ b ∈ natToDec n, plainByte b = true := by
  intro b hb
  have := natToDec_digits n b hb
  simp [plainByte]
  omega

theorem lex_snowflake (n : Nat) (bs : List Nat) :
    lexBytes (Snowflake.MarshalJSON n ++ bs) =
      FFTok.string (natToDec n) :: lexBytes bs := by
  show lexBytes ((34 :: (natToDec n ++ [34])) ++ bs) = _
  rw [List.cons_append, List.append_assoc]
  rw [List.singleton_append]
  exact lex_string_plain (natToDec n) bs (natToDec_plain n)

theorem lex_rolesElems (l : List Nat) (bs : List Nat) :
    lexBytes (rolesElems l ++ bs) = roleElemToks l ++ lexBytes bs := by
  induction l with
  | nil => simp [rolesElems, roleElemToks]
  | cons x l ih =>
    cases l with
    | nil =>
      simp only [rolesElems, roleElemToks]
      rw [lex_snowflake]
      rfl
    | cons y t =>
      simp only [rolesElems, roleElemToks]
      rw [List.append_assoc, List.append_assoc]
      rw [lex_snowflake]
      rw [List.singleton_append, lex_comma]
      rw [ih]
      simp

theorem lex_nil : lexBytes [] = [] := by rw [lexBytes]

theorem lex_keyColon (k : List Nat) (bs : List Nat)
    (hk : ∀ b ∈ k, plainByte b = true) :
    lexBytes (34 :: (k ++ 34 :: 58 :: bs)) =
      FFTok.string k :: FFTok.colon :: lexBytes bs := by
  rw [lex_string_plain k _ hk]
  rw [lex_colon]

theorem lex_objHead (bs : List Nat) :
    lexBytes (strB "\x7b \"id\":" ++ bs) =
      FFTok.leftBracket :: FFTok.string (strB "id") :: FFTok.colon ::
        lexBytes bs := by
  show lexBytes (123 :: 32 :: (34 :: (strB "id" ++ 34 :: 58 :: bs))) = _
  rw [lex_lb, lex_ws, lex_keyColon (strB "id") bs (by decide)]

theorem lex_nameKey (bs : List Nat) :
    lexBytes (strB ",\"name\":" ++ bs) =
      FFTok.comma :: FFTok.string (strB "name") :: FFTok.colon ::
        lexBytes bs := by
  show lexBytes (44 :: (34 :: (strB "name" ++ 34 :: 58 :: bs))) = _
  rw [lex_comma, lex_keyColon (strB "name") bs (by decide)]

theorem lex_rolesKey (bs : List Nat) :
    lexBytes (strB "\"roles\":" ++ bs) =
      FFTok.string (strB "roles") :: FFTok.colon :: lexBytes bs := by
  show lexBytes (34 :: (strB "roles" ++ 34 :: 58 :: bs)) = _
  rw [lex_keyColon (strB "roles") bs (by decide)]

theorem lex_userKey (bs : List Nat) :
    lexBytes (strB "\"user\":" ++ bs) =
      FFTok.string (strB "user") :: FFTok.colon :: lexBytes bs := by
  show lexBytes (34 :: (strB "user" ++ 34 :: 58 :: bs)) = _
  rw [lex_keyColon (strB "user") bs (by decide)]

theorem lex_wjs (s : List Nat) (bs : List Nat)
    (h : ∀ b ∈ s, plainByte b = true) :
    lexBytes (writeJsonString s ++ bs) = FFTok.string s :: lexBytes bs := by
  rw [writeJsonString_plain s h]
  rw [List.cons_append, List.append_assoc, List.singleton_append]
  exact lex_string_plain s bs h

theorem lex_userBuf (u : User) (bs : List Nat) :
    lexBytes (User.MarshalJSONBuf u ++ bs) =
      FFTok.leftBracket :: FFTok.string (strB "id") :: FFTok.colon ::
        FFTok.string (natToDec u.ID) :: FFTok.rightBracket :: lexBytes bs := by
  rw [show User.MarshalJSONBuf u ++ bs =
        strB "\x7b \"id\":" ++ (Snowflake.MarshalJSON u.ID ++ (125 :: bs)) from by
    simp [User.MarshalJSONBuf, List.append_assoc]
    rfl]
  rw [lex_objHead, lex_snowflake, lex_rb]

theorem lex_rcSeg (bs : List Nat) :
    lexBytes (strB "\"require_colons\":true" ++ bs) =
      FFTok.string (strB "require_colons") :: FFTok.colon ::
        FFTok.bool (strB "true") :: lexBytes bs := by
  show lexBytes
      (34 :: (strB "require_colons" ++
        34 :: 58 :: (116 :: 114 :: 117 :: 101 :: bs))) = _
  rw [lex_keyColon (strB "require_colons") _ (by decide), lex_true]

theorem lex_mgSeg (bs : List Nat) :
    lexBytes (strB "\"managed\":true" ++ bs) =
      FFTok.string (strB "managed") :: FFTok.colon ::
        FFTok.bool (strB "true") :: lexBytes bs := by
  show lexBytes
      (34 :: (strB "managed" ++
        34 :: 58 :: (116 :: 114 :: 117 :: 101 :: bs))) = _
  rw [lex_keyColon (strB "managed") _ (by decide), lex_true]

theorem lex_anSeg (bs : List Nat) :
    lexBytes (strB "\"animated\":true" ++ bs) =
      FFTok.string (strB "animated") :: FFTok.colon ::
        FFTok.bool (strB "true") :: lexBytes bs := by
  show lexBytes
      (34 :: (strB "animated" ++
        34 :: 58 :: (116 :: 114 :: 117 :: 101 :: bs))) = _
  rw [lex_keyColon (strB "animated") _ (by decide), lex_true]

theorem lex_avSeg (bs : List Nat) :
    lexBytes (strB "\"available\":true" ++ bs) =
      FFTok.string (strB "available") :: FFTok.colon ::
        FFTok.bool (strB "true") :: lexBytes bs := by
  show lexBytes
      (34 :: (strB "available" ++
        34 :: 58 :: (116 :: 114 :: 117 :: 101 :: bs))) = _
  rw [lex_keyColon (strB "available") _ (by decide), lex_true]

/-- Tokenizing the whole encoder output of an Emoji whose name needs no
string escapes. -/
theorem lex_marshal (j : Emoji) (hname : ∀ b ∈ j.Name, plainByte b = true) :
    lexBytes j.MarshalJSONBuf =
      FFTok.leftBracket :: FFTok.string (strB "id") :: FFTok.colon ::
      FFTok.string (natToDec j.ID) ::
      FFTok.comma :: FFTok.string (strB "name") :: FFTok.colon ::
      FFTok.string j.Name ::
      ((if roleLen j.RoleIDs ≠ 0 then
          FFTok.comma :: FFTok.string (strB "roles") :: FFTok.colon ::
          FFTok.leftBrace ::
            (roleElemToks (j.RoleIDs.getD []) ++ [FFTok.rightBrace])
        else [])
      ++ (FFTok.comma :: FFTok.string (strB "user") :: FFTok.colon ::
          FFTok.leftBracket :: FFTok.string (strB "id") :: FFTok.colon ::
          FFTok.string (natToDec j.User.ID) :: FFTok.rightBracket :: [])
      ++ (if j.RequireColons then
            [FFTok.comma, FFTok.string (strB "require_colons"), FFTok.colon,
             FFTok.bool (strB "true")]
          else [])
      ++ (if j.Managed then
            [FFTok.comma, FFTok.string (strB "managed"), FFTok.colon,
             FFTok.bool (strB "true")]
          else [])
      ++ (if j.Animated then
            [FFTok.comma, FFTok.string (strB "animated"), FFTok.colon,
             FFTok.bool (strB "true")]
          else [])
      ++ (if j.Available then
            [FFTok.comma, FFTok.string (strB "available"), FFTok.colon,
             FFTok.bool (strB "true")]
          else [])
      ++ [FFTok.rightBracket]) := by
  have lwjs : ∀ bs, lexBytes (writeJsonString j.Name ++ bs) =
      FFTok.string j.Name :: lexBytes bs := fun bs => lex_wjs j.Name bs hname
  rw [marshalBuf_eq]
  obtain ⟨id0, nm0, rl0, us0, rc0, mg0, an0, av0⟩ := j
  dsimp only at lwjs ⊢
  rcases rl0 with _ | l
  case _ =>
    cases rc0 <;> cases mg0 <;> cases an0 <;> cases av0 <;>
      (simp only [roleLen, ne_eq, Bool.false_eq_true, Bool.true_eq_false,
        eq_self_iff_true, not_false_eq_true, not_true_eq_false, if_true,
        if_false, ite_true, ite_false, reduceIte, List.append_nil,
        List.nil_append, List.append_assoc, List.singleton_append,
        List.cons_append, Option.getD,
        lex_objHead, lex_snowflake, lex_nameKey, lwjs, lex_comma,
        lex_rolesKey, lex_lbr, lex_rolesElems, lex_rbr, lex_userKey,
        lex_userBuf, lex_rcSeg, lex_mgSeg, lex_anSeg, lex_avSeg, lex_rb,
        lex_nil])
  case _ =>
    rcases l with _ | ⟨x, xs⟩ <;>
      cases rc0 <;> cases mg0 <;> cases an0 <;> cases av0 <;>
      (simp only [roleLen, ne_eq, Bool.false_eq_true, Bool.true_eq_false,
        eq_self_iff_true, not_false_eq_true, not_true_eq_false, if_true,
        if_false, ite_true, ite_false, reduceIte, List.append_nil,
        List.nil_append, List.append_assoc, List.singleton_append,
        List.cons_append, List.length_cons, List.length_nil, Option.getD,
        Nat.add_one_ne_zero, Nat.succ_ne_zero,
        lex_objHead, lex_snowflake, lex_nameKey, lwjs, lex_comma,
        lex_rolesKey, lex_lbr, lex_rolesElems, lex_rbr, lex_userKey,
        lex_userBuf, lex_rcSeg, lex_mgSeg, lex_anSeg, lex_avSeg, lex_rb,
        lex_nil])

/-! ## Key-matcher evaluations and boolean token facts -/

theorem matchKey_id : matchEmojiKey (strB "id") = .ID := by decide

theorem matchKey_name : matchEmojiKey (strB "name") = .Name := by decide

theorem matchKey_roles : matchEmojiKey (strB "roles") = .RoleIDs := by decide

theorem matchKey_user : matchEmojiKey (strB "user") = .User := by decide

theorem matchKey_rc :
    matchEmojiKey (strB "require_colons") = .RequireColons := by decide

theorem matchKey_mg : matchEmojiKey (strB "managed") = .Managed := by decide

theorem matchKey_an : matchEmojiKey (strB "animated") = .Animated := by decide

theorem matchKey_av : matchEmojiKey (strB "available") = .Available := by decide

theorem decodeBool_true (cur : Bool) :
    decodeBoolToken (FFTok.bool (strB "true")) cur = .ok true := by
  simp [decodeBoolToken]

theorem decodeBool_false (cur : Bool) :
    decodeBoolToken (FFTok.bool (strB "false")) cur = .ok false := by
  simp [decodeBoolToken]
  decide

/-! ## The round-trip core -/

theorem marshal_decode (j : Emoji)
    (hname : ∀ b ∈ j.Name, plainByte b = true)
    (hid : j.ID < 2 ^ 64)
    (huid : j.User.ID < 2 ^ 64)
    (hroles : ∀ x ∈ j.RoleIDs.getD [], x < 2 ^ 64)
    (hne : j.RoleIDs ≠ some []) :
    Emoji.UnmarshalJSON (Emoji.MarshalJSON (some j)) = .ok j := by
  show Emoji.UnmarshalJSONToks (lexBytes j.MarshalJSONBuf) = .ok j
  rw [lex_marshal j hname]
  rw [Emoji.UnmarshalJSONToks]
  have hsid : ∀ (jj : Emoji) ts,
      Emoji.UnmarshalJSONFFLexer jj .wantValue .ID
          (FFTok.string (natToDec j.ID) :: ts) =
        Emoji.UnmarshalJSONFFLexer { jj with ID := j.ID } .afterValue .ID ts :=
    fun jj ts => stepValueIDString jj _ ts j.ID (snowflake_roundtrip j.ID hid)
  have huser : ∀ (jj : Emoji) rest,
      Emoji.UnmarshalJSONFFLexer jj .wantValue .User
          (FFTok.leftBracket :: FFTok.string (strB "id") :: FFTok.colon ::
            FFTok.string (natToDec j.User.ID) :: FFTok.rightBracket :: rest) =
        Emoji.UnmarshalJSONFFLexer { jj with User := { ID := j.User.ID } }
          .afterValue .User rest :=
    fun jj rest => stepValueUser jj .leftBracket _ { ID := j.User.ID } rest
      rfl (by decide) (userRun jj.User j.User.ID rest huid)
  have hrcs : ∀ (jj : Emoji) ts,
      Emoji.UnmarshalJSONFFLexer jj .wantValue .RequireColons
          (FFTok.bool (strB "true") :: ts) =
        Emoji.UnmarshalJSONFFLexer { jj with RequireColons := true }
          .afterValue .RequireColons ts :=
    fun jj ts => stepValueRequireColons jj _ ts true (decodeBool_true _) rfl
  have hmgs : ∀ (jj : Emoji) ts,
      Emoji.UnmarshalJSONFFLexer jj .wantValue .Managed
          (FFTok.bool (strB "true") :: ts) =
        Emoji.UnmarshalJSONFFLexer { jj with Managed := true }
          .afterValue .Managed ts :=
    fun jj ts => stepValueManaged jj _ ts true (decodeBool_true _) rfl
  have hans : ∀ (jj : Emoji) ts,
      Emoji.UnmarshalJSONFFLexer jj .wantValue .Animated
          (FFTok.bool (strB "true") :: ts) =
        Emoji.UnmarshalJSONFFLexer { jj with Animated := true }
          .afterValue .Animated ts :=
    fun jj ts => stepValueAnimated jj _ ts true (decodeBool_true _) rfl
  have havs : ∀ (jj : Emoji) ts,
      Emoji.UnmarshalJSONFFLexer jj .wantValue .Available
          (FFTok.bool (strB "true") :: ts) =
        Emoji.UnmarshalJSONFFLexer { jj with Available := true }
          .afterValue .Available ts :=
    fun jj ts => stepValueAvailable jj _ ts true (decodeBool_true _) rfl
  obtain ⟨id0, nm0, rl0, us0, rc0, mg0, an0, av0⟩ := j
  dsimp only at hsid huser hrcs hmgs hans havs hroles hne ⊢
  rcases rl0 with _ | l
  case _ =>
    cases rc0 <;> cases mg0 <;> cases an0 <;> cases av0 <;>
      (simp only [roleLen, ne_eq, Bool.false_eq_true, Bool.true_eq_false,
        eq_self_iff_true, not_false_eq_true, not_true_eq_false, if_true,
        if_false, ite_true, ite_false, reduceIte, List.append_nil,
        List.nil_append, List.append_assoc, List.singleton_append,
        List.cons_append, Option.getD,
        stepMapStart, stepWantKeyString, matchKey_id, matchKey_name,
        matchKey_roles, matchKey_user, matchKey_rc, matchKey_mg,
        matchKey_an, matchKey_av, stepWantColon, stepAfterComma,
        stepAfterClose, stepValueName, stepValueRolesNull,
        hsid, huser, hrcs, hmgs, hans, havs, Emoji.zero, Except.map])
  case _ =>
    rcases l with _ | ⟨x, xs⟩
    · exact absurd rfl hne
    · have hrun : ∀ (jj : Emoji) rest,
          Emoji.UnmarshalJSONFFLexer jj .wantValue .RoleIDs
              (FFTok.leftBrace ::
                (roleElemToks (x :: xs) ++ FFTok.rightBrace :: rest)) =
            Emoji.UnmarshalJSONFFLexer { jj with RoleIDs := some (x :: xs) }
              .afterValue .RoleIDs rest := by
        intro jj rest
        exact stepValueRolesArr jj _ (x :: xs) rest
          (rolesRun (x :: xs) [] true rest (by simpa using hroles))
      cases rc0 <;> cases mg0 <;> cases an0 <;> cases av0 <;>
        (simp only [roleLen, ne_eq, Bool.false_eq_true, Bool.true_eq_false,
          eq_self_iff_true, not_false_eq_true, not_true_eq_false, if_true,
          if_false, ite_true, ite_false, reduceIte, List.append_nil,
          List.nil_append, List.append_assoc, List.singleton_append,
          List.cons_append, List.length_cons, List.length_nil, Option.getD,
          Nat.add_one_ne_zero, Nat.succ_ne_zero,
          stepMapStart, stepWantKeyString, matchKey_id, matchKey_name,
          matchKey_roles, matchKey_user, matchKey_rc, matchKey_mg,
          matchKey_an, matchKey_av, stepWantColon, stepAfterComma,
          stepAfterClose, stepValueName, hrun,
          hsid, huser, hrcs, hmgs, hans, havs, Emoji.zero, Except.map])

/-! ## Claim C1 -/

/-- C1: for every Emoji produced by valid construction (identifiers in
64-bit range, a name with no bytes needing string escapes, and a role
slice that is populated or absent — an empty-but-non-nil slice is
omitted on encode and therefore not among the populated fields),
decoding the bytes produced by `Emoji.MarshalJSON` with
`Emoji.UnmarshalJSON` into a fresh instance reproduces every populated
field value exactly: the decode succeeds and returns the original
Emoji. -/
theorem C1_emoji_roundtrip (j : Emoji)
    (hname : ∀ b ∈ j.Name, plainByte b = true)
    (hid : j.ID < 2 ^ 64)
    (huid : j.User.ID < 2 ^ 64)
    (hroles : ∀ x ∈ j.RoleIDs.getD [], x < 2 ^ 64)
    (hne : j.RoleIDs ≠ some []) :
    Emoji.UnmarshalJSON (Emoji.MarshalJSON (some j)) = .ok j :=
  marshal_decode j hname hid huid hroles hne

/-- Witness for C1 at a concrete Emoji. -/
theorem C1_emoji_roundtrip_witness :
    (∀ b ∈ (strB "party_blob"), plainByte b = true) ∧
    (41771983429993937 : Nat) < 2 ^ 64 ∧
    Emoji.UnmarshalJSON (Emoji.MarshalJSON (some
      { ID := 41771983429993937, Name := strB "party_blob",
        RoleIDs := some [41771983423143937, 41771983423143938],
        User := { ID := 96008815106887111 }, RequireColons := true,
        Managed := false, Animated := true, Available := false })) =
      .ok
      { ID := 41771983429993937, Name := strB "party_blob",
        RoleIDs := some [41771983423143937, 41771983423143938],
        User := { ID := 96008815106887111 }, RequireColons := true,
        Managed := false, Animated := true, Available := false } :=
  ⟨by decide, by decide,
    C1_emoji_roundtrip _ (by decide) (by decide) (by decide) (by decide)
      (by decide)⟩

/-! ## Claim C8 -/

/-- C8: encoding a nil Emoji pointer writes exactly the literal bytes
`null` with no error and without entering the per-field write loop
(`Emoji.MarshalJSON none` is the four bytes `null`, independent of any
field); encoding a non-nil Emoji runs the buffer encoder and writes
exactly one JSON object: a `{` byte, a body, and a final `}` byte. -/
theorem C8_nil_marshal :
    Emoji.MarshalJSON none = strB "null" ∧
    (∀ j : Emoji, Emoji.MarshalJSON (some j) = j.MarshalJSONBuf) ∧
    (∀ j : Emoji, ∃ mid : List Nat,
      j.MarshalJSONBuf = 123 :: mid ++ [125]) := by
  refine ⟨rfl, fun j => rfl, fun j => ?_⟩
  rw [marshalBuf_eq]
  refine ⟨strB " \"id\":" ++ Snowflake.MarshalJSON j.ID
      ++ strB ",\"name\":" ++ writeJsonString j.Name
      ++ (if roleLen j.RoleIDs ≠ 0 then
            [44] ++ strB "\"roles\":"
            ++ (match j.RoleIDs with
                | some l => [91] ++ rolesElems l ++ [93]
                | none => strB "null")
          else [])
      ++ [44] ++ strB "\"user\":" ++ User.MarshalJSONBuf j.User
      ++ (if j.RequireColons then [44] ++ strB "\"require_colons\":true"
          else [])
      ++ (if j.Managed then [44] ++ strB "\"managed\":true" else [])
      ++ (if j.Animated then [44] ++ strB "\"animated\":true" else [])
      ++ (if j.Available then [44] ++ strB "\"available\":true" else []), ?_⟩
  simp only [List.cons_append, List.append_assoc]
  rfl

/-! ## Claim C5 -/

/-- C5: encoding an Emoji whose four booleans are all false yields
exactly the bytes of the `id`, `name`, (possibly `roles`,) and `user`
fields — the output is byte-for-byte the rendering with no
`require_colons`, `managed`, `animated` or `available` key anywhere —
while for every non-nil Emoji the `"id":`, `"name":` and `"user":` keys
occur in the output. -/
theorem C5_bool_omission :
    (∀ j : Emoji, j.RequireColons = false → j.Managed = false →
      j.Animated = false → j.Available = false →
      j.MarshalJSONBuf =
        strB "\x7b \"id\":" ++ Snowflake.MarshalJSON j.ID
        ++ strB ",\"name\":" ++ writeJsonString j.Name
        ++ (if roleLen j.RoleIDs ≠ 0 then
              [44] ++ strB "\"roles\":"
              ++ (match j.RoleIDs with
                  | some l => [91] ++ rolesElems l ++ [93]
                  | none => strB "null")
            else [])
        ++ [44] ++ strB "\"user\":" ++ User.MarshalJSONBuf j.User
        ++ [125]) ∧
    (∀ j : Emoji, ∃ p q, j.MarshalJSONBuf = p ++ strB "\"id\":" ++ q) ∧
    (∀ j : Emoji, ∃ p q, j.MarshalJSONBuf = p ++ strB "\"name\":" ++ q) ∧
    (∀ j : Emoji, ∃ p q, j.MarshalJSONBuf = p ++ strB "\"user\":" ++ q) := by
  refine ⟨fun j h1 h2 h3 h4 => ?_, fun j => ?_, fun j => ?_, fun j => ?_⟩
  · rw [marshalBuf_eq, h1, h2, h3, h4]
    simp
  · rw [marshalBuf_eq]
    exact ⟨[123, 32], _, by simp [List.append_assoc]; rfl⟩
  · rw [marshalBuf_eq]
    refine ⟨strB "\x7b \"id\":" ++ Snowflake.MarshalJSON j.ID ++ [44],
      writeJsonString j.Name
      ++ (if roleLen j.RoleIDs ≠ 0 then
            [44] ++ strB "\"roles\":"
            ++ (match j.RoleIDs with
                | some l => [91] ++ rolesElems l ++ [93]
                | none => strB "null")
          else [])
      ++ [44] ++ strB "\"user\":" ++ User.MarshalJSONBuf j.User
      ++ (if j.RequireColons then [44] ++ strB "\"require_colons\":true"
          else [])
      ++ (if j.Managed then [44] ++ strB "\"managed\":true" else [])
      ++ (if j.Animated then [44] ++ strB "\"animated\":true" else [])
      ++ (if j.Available then [44] ++ strB "\"available\":true" else [])
      ++ [125], ?_⟩
    simp only [List.cons_append, List.append_assoc]
    try rfl
  · rw [marshalBuf_eq]
    refine ⟨strB "\x7b \"id\":" ++ Snowflake.MarshalJSON j.ID
      ++ strB ",\"name\":" ++ writeJsonString j.Name
      ++ (if roleLen j.RoleIDs ≠ 0 then
            [44] ++ strB "\"roles\":"
            ++ (match j.RoleIDs with
                | some l => [91] ++ rolesElems l ++ [93]
                | none => strB "null")
          else [])
      ++ [44],
      User.MarshalJSONBuf j.User
      ++ (if j.RequireColons then [44] ++ strB "\"require_colons\":true"
          else [])
      ++ (if j.Managed then [44] ++ strB "\"managed\":true" else [])
      ++ (if j.Animated then [44] ++ strB "\"animated\":true" else [])
      ++ (if j.Available then [44] ++ strB "\"available\":true" else [])
      ++ [125], ?_⟩
    simp only [List.cons_append, List.append_assoc]
    try rfl

/-- Witness for C5 at a concrete all-booleans-false Emoji. -/
theorem C5_bool_omission_witness :
    ({ ID := 7, Name := strB "ok", RoleIDs := none, User := { ID := 9 },
       RequireColons := false, Managed := false, Animated := false,
       Available := false } : Emoji).MarshalJSONBuf =
      strB "\x7b \"id\":" ++ Snowflake.MarshalJSON 7
      ++ strB ",\"name\":" ++ writeJsonString (strB "ok")
      ++ (if roleLen (none : Option (List Nat)) ≠ 0 then
            [44] ++ strB "\"roles\":" ++ strB "null"
          else [])
      ++ [44] ++ strB "\"user\":" ++ User.MarshalJSONBuf { ID := 9 }
      ++ [125] := by
  have := (C5_bool_omission.1
    { ID := 7, Name := strB "ok", RoleIDs := none, User := { ID := 9 },
      RequireColons := false, Managed := false, Animated := false,
      Available := false } rfl rfl rfl rfl)
  simpa using this

/-! ## Claim C6 -/

/-- C6: the `roles` sequence obeys omit-if-empty symmetrically.  On
encode, an Emoji whose role slice is empty (nil or zero-length) produces
exactly the bytes produced with the slice absent — no `roles` key, no
`[]`.  On decode, a JSON `null` for the `roles` value succeeds and
assigns the absent (nil) slice to the `RoleIDs` field, whatever it held
before, and decoding continues in `after-value`; end to end,
`\x7b"roles":null\x7d` decodes to the fresh Emoji with an absent role
slice. -/
theorem C6_roles_empty :
    (∀ j : Emoji, roleLen j.RoleIDs = 0 →
      j.MarshalJSONBuf = ({ j with RoleIDs := none } : Emoji).MarshalJSONBuf) ∧
    (∀ (j : Emoji) (ts : List FFTok),
      Emoji.UnmarshalJSONFFLexer j .wantValue .RoleIDs (FFTok.null :: ts) =
        Emoji.UnmarshalJSONFFLexer { j with RoleIDs := none }
          .afterValue .RoleIDs ts) ∧
    Emoji.UnmarshalJSONToks
        [FFTok.leftBracket, FFTok.string (strB "roles"), FFTok.colon,
         FFTok.null, FFTok.rightBracket] =
      .ok { Emoji.zero with RoleIDs := none } := by
  refine ⟨fun j h => ?_, stepValueRolesNull, ?_⟩
  · rw [marshalBuf_eq, marshalBuf_eq]
    simp only [h]
    simp [roleLen]
  · rw [Emoji.UnmarshalJSONToks, stepMapStart, stepWantKeyString,
      matchKey_roles, stepWantColon, stepValueRolesNull, stepAfterClose]
    rfl

/-- Witness for C6 at a concrete Emoji with an empty role slice. -/
theorem C6_roles_empty_witness :
    roleLen (some ([] : List Nat)) = 0 ∧
    ({ ID := 3, Name := strB "e", RoleIDs := some [], User := { ID := 4 },
       RequireColons := true, Managed := false, Animated := false,
       Available := false } : Emoji).MarshalJSONBuf =
      ({ ID := 3, Name := strB "e", RoleIDs := none, User := { ID := 4 },
         RequireColons := true, Managed := false, Animated := false,
         Available := false } : Emoji).MarshalJSONBuf :=
  ⟨rfl, C6_roles_empty.1 _ rfl⟩

/-! ## Claim C4 -/

/-- C4: for each of the four boolean fields, the decoder rejects any
value token that is neither a boolean token nor null with the
type-mismatch error; a boolean token whose captured bytes are anything
but the literals `true`/`false` fails with the malformed-scalar error;
and a null token is accepted and leaves the field unchanged (the decode
continues in `after-value` with the receiver untouched).  Stated both
for the shared handler body `decodeBoolToken` and for the full state
machine at each of the four field keys. -/
theorem C4_bool_fields :
    (∀ (t : FFTok) (cur : Bool), valueTok t = true →
      (∀ s, t ≠ FFTok.bool s) → t ≠ FFTok.null →
      decodeBoolToken t cur = .error .typeMismatch) ∧
    (∀ (s : List Nat) (cur : Bool), s ≠ strB "true" → s ≠ strB "false" →
      decodeBoolToken (FFTok.bool s) cur = .error .malformedScalar) ∧
    (∀ cur : Bool, decodeBoolToken FFTok.null cur = .ok cur) ∧
    (∀ (j : Emoji) (t : FFTok) (ts : List FFTok), valueTok t = true →
      (∀ s, t ≠ FFTok.bool s) → t ≠ FFTok.null →
      Emoji.UnmarshalJSONFFLexer j .wantValue .RequireColons (t :: ts) =
          .error .typeMismatch ∧
      Emoji.UnmarshalJSONFFLexer j .wantValue .Managed (t :: ts) =
          .error .typeMismatch ∧
      Emoji.UnmarshalJSONFFLexer j .wantValue .Animated (t :: ts) =
          .error .typeMismatch ∧
      Emoji.UnmarshalJSONFFLexer j .wantValue .Available (t :: ts) =
          .error .typeMismatch) ∧
    (∀ (j : Emoji) (s : List Nat) (ts : List FFTok),
      s ≠ strB "true" → s ≠ strB "false" →
      Emoji.UnmarshalJSONFFLexer j .wantValue .RequireColons
          (FFTok.bool s :: ts) = .error .malformedScalar ∧
      Emoji.UnmarshalJSONFFLexer j .wantValue .Managed
          (FFTok.bool s :: ts) = .error .malformedScalar ∧
      Emoji.UnmarshalJSONFFLexer j .wantValue .Animated
          (FFTok.bool s :: ts) = .error .malformedScalar ∧
      Emoji.UnmarshalJSONFFLexer j .wantValue .Available
          (FFTok.bool s :: ts) = .error .malformedScalar) ∧
    (∀ (j : Emoji) (ts : List FFTok),
      Emoji.UnmarshalJSONFFLexer j .wantValue .RequireColons
          (FFTok.null :: ts) =
        Emoji.UnmarshalJSONFFLexer j .afterValue .RequireColons ts ∧
      Emoji.UnmarshalJSONFFLexer j .wantValue .Managed (FFTok.null :: ts) =
        Emoji.UnmarshalJSONFFLexer j .afterValue .Managed ts ∧
      Emoji.UnmarshalJSONFFLexer j .wantValue .Animated (FFTok.null :: ts) =
        Emoji.UnmarshalJSONFFLexer j .afterValue .Animated ts ∧
      Emoji.UnmarshalJSONFFLexer j .wantValue .Available (FFTok.null :: ts) =
        Emoji.UnmarshalJSONFFLexer j .afterValue .Available ts) := by
  have hmm : ∀ (t : FFTok) (cur : Bool), valueTok t = true →
      (∀ s, t ≠ FFTok.bool s) → t ≠ FFTok.null →
      decodeBoolToken t cur = .error .typeMismatch := by
    intro t cur hv hb hn
    cases t <;> simp_all [valueTok, decodeBoolToken]
  have hms : ∀ (s : List Nat) (cur : Bool),
      s ≠ strB "true" → s ≠ strB "false" →
      decodeBoolToken (FFTok.bool s) cur = .error .malformedScalar := by
    intro s cur h1 h2
    simp [decodeBoolToken, h1, h2]
  have hnull : ∀ cur : Bool, decodeBoolToken FFTok.null cur = .ok cur :=
    fun cur => rfl
  have heta : ∀ (j : Emoji),
      ({ j with RequireColons := j.RequireColons } : Emoji) = j ∧
      ({ j with Managed := j.Managed } : Emoji) = j ∧
      ({ j with Animated := j.Animated } : Emoji) = j ∧
      ({ j with Available := j.Available } : Emoji) = j :=
    fun j => ⟨rfl, rfl, rfl, rfl⟩
  refine ⟨hmm, hms, hnull, fun j t ts hv hb hn => ?_, fun j s ts h1 h2 => ?_,
    fun j ts => ?_⟩
  · exact ⟨stepValueRequireColonsErr j t ts _ (hmm t _ hv hb hn) hv,
      stepValueManagedErr j t ts _ (hmm t _ hv hb hn) hv,
      stepValueAnimatedErr j t ts _ (hmm t _ hv hb hn) hv,
      stepValueAvailableErr j t ts _ (hmm t _ hv hb hn) hv⟩
  · exact ⟨stepValueRequireColonsErr j _ ts _ (hms s _ h1 h2) rfl,
      stepValueManagedErr j _ ts _ (hms s _ h1 h2) rfl,
      stepValueAnimatedErr j _ ts _ (hms s _ h1 h2) rfl,
      stepValueAvailableErr j _ ts _ (hms s _ h1 h2) rfl⟩
  · refine ⟨?_, ?_, ?_, ?_⟩
    · rw [stepValueRequireColons j _ ts _ (hnull _) rfl, (heta j).1]
    · rw [stepValueManaged j _ ts _ (hnull _) rfl, (heta j).2.1]
    · rw [stepValueAnimated j _ ts _ (hnull _) rfl, (heta j).2.2.1]
    · rw [stepValueAvailable j _ ts _ (hnull _) rfl, (heta j).2.2.2]

/-- Witness for C4 at concrete inputs: a string token for
`require_colons` is a type mismatch, the boolean bytes `tru` are a
malformed scalar, and null leaves the field as it was. -/
theorem C4_bool_fields_witness :
    valueTok (FFTok.string (strB "yes")) = true ∧
    Emoji.UnmarshalJSONFFLexer Emoji.zero .wantValue .RequireColons
        [FFTok.string (strB "yes")] = .error .typeMismatch ∧
    Emoji.UnmarshalJSONFFLexer Emoji.zero .wantValue .Animated
        [FFTok.bool (strB "tru")] = .error .malformedScalar ∧
    Emoji.UnmarshalJSONFFLexer Emoji.zero .wantValue .Managed
        [FFTok.null, FFTok.rightBracket] =
      Emoji.UnmarshalJSONFFLexer Emoji.zero .afterValue .Managed
        [FFTok.rightBracket] :=
  ⟨rfl,
    (C4_bool_fields.2.2.2.1 Emoji.zero (FFTok.string (strB "yes")) []
      rfl (by intro s h; cases h) (by intro h; cases h)).1,
    (C4_bool_fields.2.2.2.2.1 Emoji.zero (strB "tru") []
      (by decide) (by decide)).2.2.1,
    (C4_bool_fields.2.2.2.2.2 Emoji.zero [FFTok.rightBracket]).2.1⟩

/-- In `FFParse_want_value` with `currentKey = ffjtEmojinosuchkey`, the
decoder skips the whole value (whatever its shape) via `fs.SkipField` and
proceeds with the state and object unchanged. -/
theorem skipJsonStep (j : Emoji) (v : Json) (rest : List FFTok) :
    Emoji.UnmarshalJSONFFLexer j .wantValue .nosuchkey (Json.toks v ++ rest) =
      Emoji.UnmarshalJSONFFLexer j .afterValue .nosuchkey rest := by
  cases v with
  | str s =>
    simp only [Json.toks, List.singleton_append]
    exact stepValueSkip j (FFTok.string s) rest rest rfl rfl
  | num s =>
    simp only [Json.toks, List.singleton_append]
    exact stepValueSkip j (FFTok.integer s) rest rest rfl rfl
  | boolean s =>
    simp only [Json.toks, List.singleton_append]
    exact stepValueSkip j (FFTok.bool s) rest rest rfl rfl
  | null =>
    simp only [Json.toks, List.singleton_append]
    exact stepValueSkip j FFTok.null rest rest rfl rfl
  | arr es =>
    have hb : balancedTail 0 (JsonList.toks es) = true := by
      have := jsonList_toks_balanced es 0 [] (by simp [balancedTail])
      simpa using this
    have hs : skipValue FFTok.leftBrace
        (JsonList.toks es ++ (FFTok.rightBrace :: rest)) = some rest := by
      simp only [skipValue]
      rw [splitBalanced_pass0 _ _ hb]
      simp [splitBalanced]
    simp only [Json.toks, List.cons_append, List.append_assoc,
      List.singleton_append]
    exact stepValueSkip j FFTok.leftBrace _ rest rfl hs
  | obj fs =>
    have hb : balancedTail 0 (JsonObj.toks fs) = true := by
      have := jsonObj_toks_balanced fs 0 [] (by simp [balancedTail])
      simpa using this
    have hs : skipValue FFTok.leftBracket
        (JsonObj.toks fs ++ (FFTok.rightBracket :: rest)) = some rest := by
      simp only [skipValue]
      rw [splitBalanced_pass0 _ _ hb]
      simp [splitBalanced]
    simp only [Json.toks, List.cons_append, List.append_assoc,
      List.singleton_append]
    exact stepValueSkip j FFTok.leftBracket _ rest rfl hs

/-! ## Claim C2 -/

/-- C2: a JSON object key that matches no declared Emoji field is skipped
without error, whatever the shape of its value (scalar, nested object or
array).  First conjunct: inside any run, from any partial object `j`, the
unknown key and its whole value are consumed and `j` is unchanged — no
field is assigned from the skipped value.  Second conjunct: a full decode
of an object holding only the unknown key succeeds with the zero Emoji.
Third conjunct: a recognized key after the skipped one is still decoded
normally. -/
theorem C2_unknown_key :
    (∀ (j : Emoji) (key : EmojiKey) (kn : List Nat) (v : Json)
        (rest : List FFTok),
      matchEmojiKey kn = .nosuchkey →
      Emoji.UnmarshalJSONFFLexer j .wantKey key
          (FFTok.string kn :: FFTok.colon :: (Json.toks v ++ rest)) =
        Emoji.UnmarshalJSONFFLexer j .afterValue .nosuchkey rest) ∧
    (∀ (kn : List Nat) (v : Json),
      matchEmojiKey kn = .nosuchkey →
      Emoji.UnmarshalJSONToks
          (FFTok.leftBracket :: FFTok.string kn :: FFTok.colon ::
            (Json.toks v ++ [FFTok.rightBracket])) = .ok Emoji.zero) ∧
    (∀ (kn : List Nat) (v : Json) (s : List Nat),
      matchEmojiKey kn = .nosuchkey →
      Emoji.UnmarshalJSONToks
          (FFTok.leftBracket :: FFTok.string kn :: FFTok.colon ::
            (Json.toks v ++
              (FFTok.comma :: FFTok.string (strB "name") :: FFTok.colon ::
                FFTok.string s :: [FFTok.rightBracket]))) =
        .ok { Emoji.zero with Name := s }) := by
  refine ⟨fun j key kn v rest hm => ?_, fun kn v hm => ?_,
    fun kn v s hm => ?_⟩
  · rw [stepWantKeyString, hm, stepWantColon, skipJsonStep]
  · rw [Emoji.UnmarshalJSONToks, stepMapStart, stepWantKeyString, hm,
      stepWantColon, skipJsonStep, stepAfterClose]
    rfl
  · rw [Emoji.UnmarshalJSONToks, stepMapStart, stepWantKeyString, hm,
      stepWantColon, skipJsonStep, stepAfterComma, stepWantKeyString,
      matchKey_name, stepWantColon, stepValueName, stepAfterClose]
    rfl

/-- Witness for C2 at a concrete unknown key and a nested value. -/
theorem C2_unknown_key_witness :
    Emoji.UnmarshalJSONToks
        (FFTok.leftBracket :: FFTok.string (strB "foo") :: FFTok.colon ::
          (Json.toks
              (Json.obj (JsonObj.cons (strB "a")
                (Json.arr (JsonList.cons Json.null JsonList.nil))
                JsonObj.nil)) ++ [FFTok.rightBracket])) = .ok Emoji.zero :=
  C2_unknown_key.2.1 (strB "foo")
    (Json.obj (JsonObj.cons (strB "a")
      (Json.arr (JsonList.cons Json.null JsonList.nil)) JsonObj.nil))
    (by decide)

/-! ## Claim C9 -/

/-- C9: the empty string as an object key is treated as an unknown key:
the length guard classifies it as `nosuchkey` before any comparison
against the canonical wire keys, the key and its value (of any shape)
are skipped without error from any partial object, and a full decode of
an object holding only the empty key succeeds with no field assigned. -/
theorem C9_empty_key :
    matchEmojiKey [] = .nosuchkey ∧
    (∀ (j : Emoji) (key : EmojiKey) (v : Json) (rest : List FFTok),
      Emoji.UnmarshalJSONFFLexer j .wantKey key
          (FFTok.string [] :: FFTok.colon :: (Json.toks v ++ rest)) =
        Emoji.UnmarshalJSONFFLexer j .afterValue .nosuchkey rest) ∧
    (∀ (v : Json),
      Emoji.UnmarshalJSONToks
          (FFTok.leftBracket :: FFTok.string [] :: FFTok.colon ::
            (Json.toks v ++ [FFTok.rightBracket])) = .ok Emoji.zero) := by
  have hm : matchEmojiKey [] = .nosuchkey := by decide
  refine ⟨hm, fun j key v rest => ?_, fun v => ?_⟩
  · rw [stepWantKeyString, hm, stepWantColon, skipJsonStep]
  · rw [Emoji.UnmarshalJSONToks, stepMapStart, stepWantKeyString, hm,
      stepWantColon, skipJsonStep, stepAfterClose]
    rfl

/-! ## Claim C7 -/

/-- C7: every failing decode aborts at the offending token and returns
only the error — as an `Except` value carrying no Emoji — and whatever
tokens follow the failure point can never turn the call into a success
or change the reported error.  Shown for each error family by
quantifying over an arbitrary continuation `rest` after the offending
token: a structural error (a comma where a key was wanted), a
type-mismatch on a boolean field, a malformed boolean scalar, an error
propagated unchanged from the nested User decoder, a lexer fault, and a
run in which a `name` value was already consumed before the failing
token — the consumed field is not delivered, the result is only the
error. -/
theorem C7_error_abort :
    (∀ rest : List FFTok,
      Emoji.UnmarshalJSONToks (FFTok.leftBracket :: FFTok.comma :: rest) =
        .error .wrongToken) ∧
    (∀ (c : List Nat) (rest : List FFTok),
      Emoji.UnmarshalJSONToks
          (FFTok.leftBracket :: FFTok.string (strB "managed") ::
            FFTok.colon :: FFTok.integer c :: rest) =
        .error .typeMismatch) ∧
    (∀ rest : List FFTok,
      Emoji.UnmarshalJSONToks
          (FFTok.leftBracket :: FFTok.string (strB "animated") ::
            FFTok.colon :: FFTok.bool (strB "tru") :: rest) =
        .error .malformedScalar) ∧
    (∀ rest : List FFTok,
      Emoji.UnmarshalJSONToks
          (FFTok.leftBracket :: FFTok.string (strB "user") ::
            FFTok.colon :: FFTok.leftBracket :: FFTok.comma :: rest) =
        .error .wrongToken) ∧
    (∀ rest : List FFTok,
      Emoji.UnmarshalJSONToks (FFTok.error :: rest) = .error .lexer) ∧
    (∀ (s c : List Nat) (rest : List FFTok),
      Emoji.UnmarshalJSONToks
          (FFTok.leftBracket :: FFTok.string (strB "name") :: FFTok.colon ::
            FFTok.string s :: FFTok.comma :: FFTok.string (strB "managed") ::
            FFTok.colon :: FFTok.integer c :: rest) =
        .error .typeMismatch) := by
  refine ⟨fun rest => ?_, fun c rest => ?_, fun rest => ?_, fun rest => ?_,
    fun rest => ?_, fun s c rest => ?_⟩
  · rw [Emoji.UnmarshalJSONToks, stepMapStart]
    rw [show Emoji.UnmarshalJSONFFLexer Emoji.zero .wantKey .base
          (FFTok.comma :: rest) = .error .wrongToken from by
      rw [Emoji.UnmarshalJSONFFLexer.eq_def]; simp]
    rfl
  · rw [Emoji.UnmarshalJSONToks, stepMapStart, stepWantKeyString,
      matchKey_mg, stepWantColon,
      stepValueManagedErr Emoji.zero (FFTok.integer c) rest
        DecErr.typeMismatch rfl rfl]
    rfl
  · rw [Emoji.UnmarshalJSONToks, stepMapStart, stepWantKeyString,
      matchKey_an, stepWantColon,
      stepValueAnimatedErr Emoji.zero (FFTok.bool (strB "tru")) rest
        DecErr.malformedScalar rfl rfl]
    rfl
  · rw [Emoji.UnmarshalJSONToks, stepMapStart, stepWantKeyString,
      matchKey_user, stepWantColon,
      stepValueUserErr Emoji.zero FFTok.leftBracket (FFTok.comma :: rest)
        DecErr.wrongToken rfl (by intro h; exact FFTok.noConfusion h)
        (by rw [User.UnmarshalJSONFFLexer.eq_def]; simp)]
    rfl
  · rw [Emoji.UnmarshalJSONToks]
    rw [show Emoji.UnmarshalJSONFFLexer Emoji.zero .mapStart .base
          (FFTok.error :: rest) = .error .lexer from by
      rw [Emoji.UnmarshalJSONFFLexer.eq_def]; simp]
    rfl
  · rw [Emoji.UnmarshalJSONToks, stepMapStart, stepWantKeyString,
      matchKey_name, stepWantColon, stepValueName, stepAfterComma,
      stepWantKeyString, matchKey_mg, stepWantColon,
      stepValueManagedErr { Emoji.zero with Name := s } (FFTok.integer c) rest
        DecErr.typeMismatch rfl rfl]
    rfl

/-! ## Claim C3 -/

/-- ASCII lower-casing of one byte.  Modelled from the spec: the
reference notion of case-insensitivity used to characterise the fold
fallback of the key matcher. -/
def lowerByte (b : Nat) : Nat := if 65 ≤ b ∧ b ≤ 90 then b + 32 else b

/-- The canonical wire key of each field constant (`none` for the two
non-field constants). -/
def emojiWireKey : EmojiKey → Option (List Nat)
  | .ID => some ffjKeyEmojiID
  | .Name => some ffjKeyEmojiName
  | .RoleIDs => some ffjKeyEmojiRoleIDs
  | .User => some ffjKeyEmojiUser
  | .RequireColons => some ffjKeyEmojiRequireColons
  | .Managed => some ffjKeyEmojiManaged
  | .Animated => some ffjKeyEmojiAnimated
  | .Available => some ffjKeyEmojiAvailable
  | .base => none
  | .nosuchkey => none

/-- Reference key matcher.  Modelled from the spec: a key resolves to
the field whose canonical wire key it equals after ASCII lower-casing,
and to the unknown-field constant otherwise.  Because the canonical keys
are lower-case and pairwise distinct, at most one branch can fire and
the branch order is immaterial; exact matches are subsumed, since an
exact match is in particular a case-insensitive one. -/
def specMatchKey (kn : List Nat) : EmojiKey :=
  if kn.map lowerByte = ffjKeyEmojiID then .ID
  else if kn.map lowerByte = ffjKeyEmojiName then .Name
  else if kn.map lowerByte = ffjKeyEmojiRoleIDs then .RoleIDs
  else if kn.map lowerByte = ffjKeyEmojiUser then .User
  else if kn.map lowerByte = ffjKeyEmojiRequireColons then .RequireColons
  else if kn.map lowerByte = ffjKeyEmojiManaged then .Managed
  else if kn.map lowerByte = ffjKeyEmojiAnimated then .Animated
  else if kn.map lowerByte = ffjKeyEmojiAvailable then .Available
  else .nosuchkey

set_option maxRecDepth 8192 in
theorem slefByte : ∀ a < 123, ∀ b < 256, 97 ≤ a →
    ((a &&& 223 == b &&& 223) = true ↔ lowerByte b = a) := by decide

set_option maxRecDepth 8192 in
theorem efrByte : ∀ a < 123, ∀ b < 128, (97 ≤ a ∨ a = 95) →
    ((a == b ||
        ((65 ≤ (a &&& 223)) && ((a &&& 223) ≤ 90) &&
          ((a &&& 223) == (b &&& 223)))) = true ↔ lowerByte b = a) := by
  decide

/-- `SimpleLetterEqualFold` with an all-lower-case-letter left argument
is exactly case-insensitive equality, for byte-valued inputs. -/
theorem slef_spec :
    ∀ (K kn : List Nat), (∀ a ∈ K, 97 ≤ a ∧ a < 123) →
      (∀ b ∈ kn, b < 256) →
      (simpleLetterEqualFold K kn = true ↔ kn.map lowerByte = K) := by
  intro K
  induction K with
  | nil =>
    intro kn _ _
    cases kn <;> simp [simpleLetterEqualFold]
  | cons a s ih =>
    intro kn hK hkn
    cases kn with
    | nil => simp [simpleLetterEqualFold]
    | cons b t =>
      have ha := hK a (List.mem_cons_self a s)
      have hb := hkn b (List.mem_cons_self b t)
      simp only [simpleLetterEqualFold, Bool.and_eq_true, List.map_cons,
        List.cons.injEq]
      exact and_congr (slefByte a ha.2 b hb ha.1)
        (ih t (fun x hx => hK x (List.mem_cons_of_mem a hx))
          (fun x hx => hkn x (List.mem_cons_of_mem b hx)))

/-- `EqualFoldRight` with a left argument of lower-case letters and
underscores is exactly case-insensitive equality, for ASCII inputs. -/
theorem efr_spec :
    ∀ (K kn : List Nat), (∀ a ∈ K, (97 ≤ a ∧ a < 123) ∨ a = 95) →
      (∀ b ∈ kn, b < 128) →
      (equalFoldRight K kn = true ↔ kn.map lowerByte = K) := by
  intro K
  induction K with
  | nil =>
    intro kn _ _
    cases kn <;> simp [equalFoldRight]
  | cons a s ih =>
    intro kn hK hkn
    cases kn with
    | nil => simp [equalFoldRight]
    | cons b t =>
      have ha := hK a (List.mem_cons_self a s)
      have hb := hkn b (List.mem_cons_self b t)
      have hlt : a < 123 := by rcases ha with h | h <;> omega
      simp only [equalFoldRight]
      rw [if_pos hb]
      have hor : 97 ≤ a ∨ a = 95 := by rcases ha with h | h
                                       · exact Or.inl h.1
                                       · exact Or.inr h
      simp only [Bool.and_eq_true, List.map_cons, List.cons.injEq]
      exact and_congr (efrByte a hlt b hb hor)
        (ih t (fun x hx => hK x (List.mem_cons_of_mem a hx))
          (fun x hx => hkn x (List.mem_cons_of_mem b hx)))

/-- The first-byte switch only fires on an exact match with the
corresponding canonical wire key. -/
theorem matchKeySwitch_sound (kn : List Nat) (k : EmojiKey)
    (h : matchKeySwitch kn = some k) : emojiWireKey k = some kn := by
  cases kn with
  | nil => exact Option.noConfusion h
  | cons b t =>
    simp only [matchKeySwitch] at h
    split_ifs at h <;>
      first
        | exact Option.noConfusion h
        | (injection h with hk; subst hk; simp only [emojiWireKey]; simp_all)

/-- Every canonical wire key is resolved by the switch to its own field
constant. -/
theorem matchKeySwitch_complete (k : EmojiKey) (kn : List Nat)
    (h : emojiWireKey k = some kn) : matchKeySwitch kn = some k := by
  cases k <;> simp only [emojiWireKey, Option.some.injEq,
    reduceCtorEq] at h <;> subst h <;> decide

/-- When the switch finds no exact match the matcher falls through to
the fold chain. -/
theorem matchEmojiKey_folds (kn : List Nat) (h0 : kn ≠ [])
    (hsw : matchKeySwitch kn = none) :
    matchEmojiKey kn = matchKeyFolds kn := by
  rw [matchEmojiKey, if_neg (by simp [h0]), hsw]

/-- When the switch finds an exact match its result is taken. -/
theorem matchEmojiKey_switch (kn : List Nat) (k : EmojiKey)
    (hsw : matchKeySwitch kn = some k) : matchEmojiKey kn = k := by
  have h0 : kn ≠ [] := by
    intro h
    subst h
    exact Option.noConfusion hsw
  rw [matchEmojiKey, if_neg (by simp [h0]), hsw]

theorem bool_eq_false_of_iff {b : Bool} {P : Prop} (h : b = true ↔ P)
    (hn : ¬P) : b = false := by
  cases hbb : b
  · rfl
  · exact absurd (h.mp hbb) hn

/-- On ASCII keys the generated matcher — exact switch first, fold chain
second, unknown last — coincides with the reference case-insensitive
matcher. -/
theorem matchEmojiKey_ascii (kn : List Nat) (hk : ∀ b ∈ kn, b < 128) :
    matchEmojiKey kn = specMatchKey kn := by
  cases hsw : matchKeySwitch kn with
  | some k =>
    rw [matchEmojiKey_switch kn k hsw]
    have hkn := matchKeySwitch_sound kn k hsw
    cases k <;> simp only [emojiWireKey, Option.some.injEq,
      reduceCtorEq] at hkn <;>
      first
        | exact hkn.elim
        | (subst hkn; decide)
  | none =>
    by_cases h0 : kn = []
    · subst h0; decide
    · rw [matchEmojiKey_folds kn h0 hsw]
      have hkn256 : ∀ b ∈ kn, b < 256 :=
        fun b hb => lt_trans (hk b hb) (by norm_num)
      have hAvail := slef_spec ffjKeyEmojiAvailable kn (by decide) hkn256
      have hAnim := slef_spec ffjKeyEmojiAnimated kn (by decide) hkn256
      have hMan := slef_spec ffjKeyEmojiManaged kn (by decide) hkn256
      have hName := slef_spec ffjKeyEmojiName kn (by decide) hkn256
      have hID := slef_spec ffjKeyEmojiID kn (by decide) hkn256
      have hRC := efr_spec ffjKeyEmojiRequireColons kn (by decide) hk
      have hUser := efr_spec ffjKeyEmojiUser kn (by decide) hk
      have hRoles := efr_spec ffjKeyEmojiRoleIDs kn (by decide) hk
      by_cases c1 : kn.map lowerByte = ffjKeyEmojiID
      · have n2 : ¬ kn.map lowerByte = ffjKeyEmojiName :=
          fun hc => absurd (c1.symm.trans hc) (by decide)
        have n3 : ¬ kn.map lowerByte = ffjKeyEmojiRoleIDs :=
          fun hc => absurd (c1.symm.trans hc) (by decide)
        have n4 : ¬ kn.map lowerByte = ffjKeyEmojiUser :=
          fun hc => absurd (c1.symm.trans hc) (by decide)
        have n5 : ¬ kn.map lowerByte = ffjKeyEmojiRequireColons :=
          fun hc => absurd (c1.symm.trans hc) (by decide)
        have n6 : ¬ kn.map lowerByte = ffjKeyEmojiManaged :=
          fun hc => absurd (c1.symm.trans hc) (by decide)
        have n7 : ¬ kn.map lowerByte = ffjKeyEmojiAnimated :=
          fun hc => absurd (c1.symm.trans hc) (by decide)
        have n8 : ¬ kn.map lowerByte = ffjKeyEmojiAvailable :=
          fun hc => absurd (c1.symm.trans hc) (by decide)
        simp [matchKeyFolds, specMatchKey, c1,
          bool_eq_false_of_iff hAvail n8, bool_eq_false_of_iff hAnim n7,
          bool_eq_false_of_iff hMan n6, bool_eq_false_of_iff hRC n5,
          bool_eq_false_of_iff hUser n4, bool_eq_false_of_iff hRoles n3,
          bool_eq_false_of_iff hName n2, hID.mpr c1] <;> try decide
      · by_cases c2 : kn.map lowerByte = ffjKeyEmojiName
        · have n3 : ¬ kn.map lowerByte = ffjKeyEmojiRoleIDs :=
            fun hc => absurd (c2.symm.trans hc) (by decide)
          have n4 : ¬ kn.map lowerByte = ffjKeyEmojiUser :=
            fun hc => absurd (c2.symm.trans hc) (by decide)
          have n5 : ¬ kn.map lowerByte = ffjKeyEmojiRequireColons :=
            fun hc => absurd (c2.symm.trans hc) (by decide)
          have n6 : ¬ kn.map lowerByte = ffjKeyEmojiManaged :=
            fun hc => absurd (c2.symm.trans hc) (by decide)
          have n7 : ¬ kn.map lowerByte = ffjKeyEmojiAnimated :=
            fun hc => absurd (c2.symm.trans hc) (by decide)
          have n8 : ¬ kn.map lowerByte = ffjKeyEmojiAvailable :=
            fun hc => absurd (c2.symm.trans hc) (by decide)
          simp [matchKeyFolds, specMatchKey, c1, c2,
            bool_eq_false_of_iff hAvail n8, bool_eq_false_of_iff hAnim n7,
            bool_eq_false_of_iff hMan n6, bool_eq_false_of_iff hRC n5,
            bool_eq_false_of_iff hUser n4, bool_eq_false_of_iff hRoles n3,
            hName.mpr c2, bool_eq_false_of_iff hID c1] <;> try decide
        · by_cases c3 : kn.map lowerByte = ffjKeyEmojiRoleIDs
          · have n4 : ¬ kn.map lowerByte = ffjKeyEmojiUser :=
              fun hc => absurd (c3.symm.trans hc) (by decide)
            have n5 : ¬ kn.map lowerByte = ffjKeyEmojiRequireColons :=
              fun hc => absurd (c3.symm.trans hc) (by decide)
            have n6 : ¬ kn.map lowerByte = ffjKeyEmojiManaged :=
              fun hc => absurd (c3.symm.trans hc) (by decide)
            have n7 : ¬ kn.map lowerByte = ffjKeyEmojiAnimated :=
              fun hc => absurd (c3.symm.trans hc) (by decide)
            have n8 : ¬ kn.map lowerByte = ffjKeyEmojiAvailable :=
              fun hc => absurd (c3.symm.trans hc) (by decide)
            simp [matchKeyFolds, specMatchKey, c1, c2, c3,
              bool_eq_false_of_iff hAvail n8, bool_eq_false_of_iff hAnim n7,
              bool_eq_false_of_iff hMan n6, bool_eq_false_of_iff hRC n5,
              bool_eq_false_of_iff hUser n4, hRoles.mpr c3,
              bool_eq_false_of_iff hName c2, bool_eq_false_of_iff hID c1] <;> try decide
          · by_cases c4 : kn.map lowerByte = ffjKeyEmojiUser
            · have n5 : ¬ kn.map lowerByte = ffjKeyEmojiRequireColons :=
                fun hc => absurd (c4.symm.trans hc) (by decide)
              have n6 : ¬ kn.map lowerByte = ffjKeyEmojiManaged :=
                fun hc => absurd (c4.symm.trans hc) (by decide)
              have n7 : ¬ kn.map lowerByte = ffjKeyEmojiAnimated :=
                fun hc => absurd (c4.symm.trans hc) (by decide)
              have n8 : ¬ kn.map lowerByte = ffjKeyEmojiAvailable :=
                fun hc => absurd (c4.symm.trans hc) (by decide)
              simp [matchKeyFolds, specMatchKey, c1, c2, c3, c4,
                bool_eq_false_of_iff hAvail n8, bool_eq_false_of_iff hAnim n7,
                bool_eq_false_of_iff hMan n6, bool_eq_false_of_iff hRC n5,
                hUser.mpr c4, bool_eq_false_of_iff hRoles c3,
                bool_eq_false_of_iff hName c2, bool_eq_false_of_iff hID c1] <;> try decide
            · by_cases c5 : kn.map lowerByte = ffjKeyEmojiRequireColons
              · have n6 : ¬ kn.map lowerByte = ffjKeyEmojiManaged :=
                  fun hc => absurd (c5.symm.trans hc) (by decide)
                have n7 : ¬ kn.map lowerByte = ffjKeyEmojiAnimated :=
                  fun hc => absurd (c5.symm.trans hc) (by decide)
                have n8 : ¬ kn.map lowerByte = ffjKeyEmojiAvailable :=
                  fun hc => absurd (c5.symm.trans hc) (by decide)
                simp [matchKeyFolds, specMatchKey, c1, c2, c3, c4, c5,
                  bool_eq_false_of_iff hAvail n8,
                  bool_eq_false_of_iff hAnim n7,
                  bool_eq_false_of_iff hMan n6, hRC.mpr c5,
                  bool_eq_false_of_iff hUser c4,
                  bool_eq_false_of_iff hRoles c3,
                  bool_eq_false_of_iff hName c2, bool_eq_false_of_iff hID c1] <;> try decide
              · by_cases c6 : kn.map lowerByte = ffjKeyEmojiManaged
                · have n7 : ¬ kn.map lowerByte = ffjKeyEmojiAnimated :=
                    fun hc => absurd (c6.symm.trans hc) (by decide)
                  have n8 : ¬ kn.map lowerByte = ffjKeyEmojiAvailable :=
                    fun hc => absurd (c6.symm.trans hc) (by decide)
                  simp [matchKeyFolds, specMatchKey, c1, c2, c3, c4, c5, c6,
                    bool_eq_false_of_iff hAvail n8,
                    bool_eq_false_of_iff hAnim n7, hMan.mpr c6,
                    bool_eq_false_of_iff hRC c5,
                    bool_eq_false_of_iff hUser c4,
                    bool_eq_false_of_iff hRoles c3,
                    bool_eq_false_of_iff hName c2,
                    bool_eq_false_of_iff hID c1] <;> try decide
                · by_cases c7 : kn.map lowerByte = ffjKeyEmojiAnimated
                  · have n8 : ¬ kn.map lowerByte = ffjKeyEmojiAvailable :=
                      fun hc => absurd (c7.symm.trans hc) (by decide)
                    simp [matchKeyFolds, specMatchKey, c1, c2, c3, c4, c5,
                      c6, c7, bool_eq_false_of_iff hAvail n8, hAnim.mpr c7,
                      bool_eq_false_of_iff hMan c6,
                      bool_eq_false_of_iff hRC c5,
                      bool_eq_false_of_iff hUser c4,
                      bool_eq_false_of_iff hRoles c3,
                      bool_eq_false_of_iff hName c2,
                      bool_eq_false_of_iff hID c1] <;> try decide
                  · by_cases c8 : kn.map lowerByte = ffjKeyEmojiAvailable
                    · simp [matchKeyFolds, specMatchKey, c1, c2, c3, c4, c5,
                        c6, c7, c8, hAvail.mpr c8,
                        bool_eq_false_of_iff hAnim c7,
                        bool_eq_false_of_iff hMan c6,
                        bool_eq_false_of_iff hRC c5,
                        bool_eq_false_of_iff hUser c4,
                        bool_eq_false_of_iff hRoles c3,
                        bool_eq_false_of_iff hName c2,
                        bool_eq_false_of_iff hID c1] <;> try decide
                    · simp [matchKeyFolds, specMatchKey, c1, c2, c3, c4, c5,
                        c6, c7, c8, bool_eq_false_of_iff hAvail c8,
                        bool_eq_false_of_iff hAnim c7,
                        bool_eq_false_of_iff hMan c6,
                        bool_eq_false_of_iff hRC c5,
                        bool_eq_false_of_iff hUser c4,
                        bool_eq_false_of_iff hRoles c3,
                        bool_eq_false_of_iff hName c2,
                        bool_eq_false_of_iff hID c1] <;> try decide

/-- C3: an incoming object key is matched to a field using, in order,
exact byte match, case-insensitive fold fallback, then unknown-field
classification.  Conjunct 1: any key byte-equal to a canonical wire key
resolves to that field — the exact match is always taken.  Conjunct 2:
the first-byte switch fires exactly on the canonical wire keys.
Conjunct 3: only when the switch finds nothing does the fold chain
decide the result.  Conjunct 4: on ASCII keys the whole matcher equals
the reference case-insensitive matcher `specMatchKey`, which resolves a
key to the field whose canonical key it equals after lower-casing, and
to `nosuchkey` when there is none.  Conjunct 5: a key classified
`nosuchkey` is skipped with its value, not an error. -/
theorem C3_key_match :
    (∀ (k : EmojiKey) (kn : List Nat), emojiWireKey k = some kn →
      matchEmojiKey kn = k) ∧
    (∀ (kn : List Nat) (k : EmojiKey),
      matchKeySwitch kn = some k ↔ emojiWireKey k = some kn) ∧
    (∀ kn : List Nat, kn ≠ [] → matchKeySwitch kn = none →
      matchEmojiKey kn = matchKeyFolds kn) ∧
    (∀ kn : List Nat, (∀ b ∈ kn, b < 128) →
      matchEmojiKey kn = specMatchKey kn) ∧
    (∀ (j : Emoji) (key : EmojiKey) (kn : List Nat) (v : Json)
        (rest : List FFTok),
      matchEmojiKey kn = .nosuchkey →
      Emoji.UnmarshalJSONFFLexer j .wantKey key
          (FFTok.string kn :: FFTok.colon :: (Json.toks v ++ rest)) =
        Emoji.UnmarshalJSONFFLexer j .afterValue .nosuchkey rest) := by
  refine ⟨fun k kn h => ?_, fun kn k => ?_, matchEmojiKey_folds,
    matchEmojiKey_ascii, fun j key kn v rest hm => ?_⟩
  · exact matchEmojiKey_switch kn k (matchKeySwitch_complete k kn h)
  · exact ⟨matchKeySwitch_sound kn k, matchKeySwitch_complete k kn⟩
  · rw [stepWantKeyString, hm, stepWantColon, skipJsonStep]

/-- Witness for C3 at concrete keys: an exact match, the switch iff, a
fold fallthrough, an upper-cased fold match, and an unknown-key skip. -/
theorem C3_key_match_witness :
    matchEmojiKey (strB "user") = .User ∧
    (matchKeySwitch (strB "id") = some .ID ↔
      emojiWireKey .ID = some (strB "id")) ∧
    matchEmojiKey (strB "foo") = matchKeyFolds (strB "foo") ∧
    matchEmojiKey (strB "ANIMATED") = specMatchKey (strB "ANIMATED") ∧
    Emoji.UnmarshalJSONFFLexer Emoji.zero .wantKey .base
        (FFTok.string (strB "zzz") :: FFTok.colon ::
          (Json.toks Json.null ++ [])) =
      Emoji.UnmarshalJSONFFLexer Emoji.zero .afterValue .nosuchkey [] :=
  ⟨C3_key_match.1 EmojiKey.User (strB "user") rfl,
   C3_key_match.2.1 (strB "id") EmojiKey.ID,
   C3_key_match.2.2.1 (strB "foo") (by decide) (by decide),
   C3_key_match.2.2.2.1 (strB "ANIMATED") (by decide),
   C3_key_match.2.2.2.2 Emoji.zero .base (strB "zzz") Json.null []
     (by decide)⟩

/-! ## Claim C10 -/

theorem dropWhile_dropWhile {α : Type} (p : α → Bool) :
    ∀ l : List α, (l.dropWhile p).dropWhile p = l.dropWhile p := by
  intro l
  induction l with
  | nil => rfl
  | cons c cs ih =>
    by_cases hp : p c
    · simp [List.dropWhile_cons, hp, ih]
    · simp [List.dropWhile_cons, hp]

theorem dropWhile_self_head {α : Type} (p : α → Bool) (c : α) (cs : List α)
    (h : List.dropWhile p (c :: cs) = c :: cs) : p c = false := by
  by_cases hp : p c
  · rw [List.dropWhile_cons] at h
    rw [if_pos hp] at h
    have hl := dropWhile_length_le p cs
    rw [h] at hl
    simp at hl
  · simpa using hp

theorem goTrimSpace_dropWhile (l : List Char) :
    (goTrimSpace l).dropWhile goIsSpace = goTrimSpace l := by
  rw [goTrimSpace]
  cases hAe : l.dropWhile goIsSpace with
  | nil => simp
  | cons c cs =>
    have hAd : List.dropWhile goIsSpace (c :: cs) = c :: cs := by
      rw [← hAe]
      exact dropWhile_dropWhile goIsSpace l
    have hpc : goIsSpace c = false := dropWhile_self_head _ c cs hAd
    rw [List.reverse_cons, List.dropWhile_append]
    by_cases he : (List.dropWhile goIsSpace cs.reverse).isEmpty
    · rw [if_pos he]
      simp [List.dropWhile, hpc]
    · rw [if_neg he]
      rw [List.reverse_append]
      simp [List.dropWhile_cons, hpc]

theorem goTrimSpace_of_trimmed (m : List Char)
    (h1 : m.dropWhile goIsSpace = m)
    (h2 : m.reverse.dropWhile goIsSpace = m.reverse) : goTrimSpace m = m := by
  rw [goTrimSpace, h1, h2, List.reverse_reverse]

theorem goTrimSpace_idem (l : List Char) :
    goTrimSpace (goTrimSpace l) = goTrimSpace l := by
  refine goTrimSpace_of_trimmed _ (goTrimSpace_dropWhile l) ?_
  rw [goTrimSpace, List.reverse_reverse]
  exact dropWhile_dropWhile goIsSpace _

theorem goSplitComma_ne_nil : ∀ l : List Char, goSplitComma l ≠ [] := by
  intro l
  induction l with
  | nil => simp [goSplitComma]
  | cons c cs ih =>
    simp only [goSplitComma]
    split
    · simp
    · split
      next t ts heq => simp
      next heq => simp

theorem joinComma_goSplitComma :
    ∀ l : List Char, joinComma (goSplitComma l) = l := by
  intro l
  induction l with
  | nil => rfl
  | cons c cs ih =>
    by_cases hc : c = ','
    · subst hc
      cases hsp : goSplitComma cs with
      | nil => exact absurd hsp (goSplitComma_ne_nil cs)
      | cons t ts =>
        have hg : goSplitComma (',' :: cs) = [] :: t :: ts := by
          simp [goSplitComma, hsp]
        rw [hg]
        have hj : joinComma ([] :: t :: ts) = ',' :: joinComma (t :: ts) := rfl
        rw [hj, ← hsp, ih]
    · cases hsp : goSplitComma cs with
      | nil => exact absurd hsp (goSplitComma_ne_nil cs)
      | cons t ts =>
        have hg : goSplitComma (c :: cs) = (c :: t) :: ts := by
          simp [goSplitComma, hc, hsp]
        rw [hg]
        rw [hsp] at ih
        cases ts with
        | nil =>
          have hj1 : joinComma [c :: t] = c :: t := by
            simp [joinComma]
          have hj2 : joinComma [t] = t := by
            simp [joinComma]
          rw [hj2] at ih
          rw [hj1, ih]
        | cons t2 ts2 =>
          have hj1 : joinComma ((c :: t) :: t2 :: ts2) =
              (c :: t) ++ (',' :: joinComma (t2 :: ts2)) := rfl
          have hj2 : joinComma (t :: t2 :: ts2) =
              t ++ (',' :: joinComma (t2 :: ts2)) := rfl
          rw [hj2] at ih
          rw [hj1, ← ih]
          simp

theorem goSplitComma_no_comma :
    ∀ (l : List Char) (seg : List Char), seg ∈ goSplitComma l → ',' ∉ seg := by
  intro l
  induction l with
  | nil =>
    intro seg hseg
    simp [goSplitComma] at hseg
    subst hseg
    simp
  | cons c cs ih =>
    intro seg hseg
    by_cases hc : c = ','
    · subst hc
      have hg : goSplitComma (',' :: cs) = [] :: goSplitComma cs := by
        simp [goSplitComma]
      rw [hg] at hseg
      rcases List.mem_cons.mp hseg with h | h
      · subst h; simp
      · exact ih seg h
    · simp only [goSplitComma, if_neg hc] at hseg
      split at hseg
      next t ts heq =>
        rcases List.mem_cons.mp hseg with h | h
        · subst h
          have ht : ',' ∉ t := ih t (by rw [heq]; exact List.mem_cons_self t ts)
          intro hmem
          rcases List.mem_cons.mp hmem with h1 | h1
          · exact hc h1.symm
          · exact ht h1
        · exact ih seg (by rw [heq]; exact List.mem_cons_of_mem t h)
      next heq =>
        exact absurd heq (goSplitComma_ne_nil cs)

/-- C10: `Sticker.TagList` splits `Tags` on commas and trims every
segment: the list returned is exactly the comma-separated segments of
`Tags` under whitespace trimming — the untrimmed segments are comma-free
and reconstruct `Tags` when re-joined with commas — each returned element
is fully trimmed (trimming again changes nothing), the result is never
the empty list, and the empty `Tags` string yields the one-element list
containing the empty string. -/
theorem C10_taglist :
    (∀ st : Sticker,
      Sticker.TagList st = (goSplitComma st.Tags).map goTrimSpace) ∧
    (∀ st : Sticker, joinComma (goSplitComma st.Tags) = st.Tags) ∧
    (∀ st : Sticker, ∀ seg ∈ goSplitComma st.Tags, ',' ∉ seg) ∧
    (∀ st : Sticker, ∀ t ∈ Sticker.TagList st, goTrimSpace t = t) ∧
    (∀ st : Sticker, Sticker.TagList st ≠ []) ∧
    (∀ st : Sticker, st.Tags = [] → Sticker.TagList st = [[]]) := by
  refine ⟨fun st => rfl, fun st => joinComma_goSplitComma st.Tags,
    fun st => goSplitComma_no_comma st.Tags, fun st t ht => ?_,
    fun st => ?_, fun st h0 => ?_⟩
  · obtain ⟨seg, hseg, hts⟩ := List.mem_map.mp ht
    rw [← hts]
    exact goTrimSpace_idem seg
  · intro hnil
    exact goSplitComma_ne_nil st.Tags (List.map_eq_nil_iff.mp hnil)
  · rw [Sticker.TagList, h0]
    rfl

/-- Witness for C10 at a concrete sticker with padded tags and at one
with empty tags. -/
theorem C10_taglist_witness :
    Sticker.TagList
        ⟨0, 0, [], [], ' ' :: 'a' :: [], 0, 0, false, 0, none, none⟩ ≠ [] ∧
    Sticker.TagList ⟨0, 0, [], [], [], 0, 0, false, 0, none, none⟩ = [[]] ∧
    goTrimSpace (goTrimSpace (' ' :: 'a' :: [])) =
      goTrimSpace (' ' :: 'a' :: []) :=
  ⟨C10_taglist.2.2.2.2.1
      ⟨0, 0, [], [], ' ' :: 'a' :: [], 0, 0, false, 0, none, none⟩,
   C10_taglist.2.2.2.2.2
      ⟨0, 0, [], [], [], 0, 0, false, 0, none, none⟩ rfl,
   C10_taglist.2.2.2.1
      ⟨0, 0, [], [], ' ' :: 'a' :: [], 0, 0, false, 0, none, none⟩
      (goTrimSpace (' ' :: 'a' :: []))
      (by decide)⟩

end Arikawa
